import Mathlib

/-! Network library (network.cpp, v1.02): registry, polling and bounded
transfer loops.

A shallow embedding of `src/src/network.cpp`.  The operating system is an
oracle: every call of `recv`/`send`, `select`, `WSAGetLastError` and
`GetTickCount` made by the code takes its result from an explicit argument.

* `int` values are `Int`; the one product that can leave the range,
  `timeout * 1000`, is reduced by `toInt32`;
* `DWORD` values are `Nat` reduced modulo `2^32`;
* the master set `g_netSocketsSet` is the list `fd_array[0 .. fd_count)`.
-/

set_option autoImplicit false

namespace Network

/-! ## Constants of the platform headers -/

/-- The value `SOCKET_ERROR` of winsock2.h. -/
def SOCKET_ERROR : Int := -1

/-- The value `INVALID_SOCKET` of winsock2.h, as it compares with an `int`. -/
def INVALID_SOCKET : Int := -1

/-- The value `WSAEWOULDBLOCK` of winsock2.h. -/
def WSAEWOULDBLOCK : Int := 10035

/-- Conversion of an integer to `DWORD` (32-bit unsigned). -/
def toDWORD (x : Int) : Nat := (x % 4294967296).toNat

/-! ## The oracle of a transfer loop -/

/-- What one call of `recv` (or `send`) does: it returns `SOCKET_ERROR`, and
`WSAGetLastError()` then gives `lastError`; or it returns the count
`chunk.length` and, for `recv`, has stored `chunk` at the pointer it was
given. -/
inductive IoResult where
  | count (chunk : List UInt8)
  | socketError (lastError : Int)
  deriving DecidableEq, Repr

/-- One iteration of a transfer loop as the operating system answers it: the
result of the `recv`/`send` call and the reading `GetTickCount()` gives if
this iteration consults it. -/
structure Attempt where
  io : IoResult
  tick : Nat
  deriving DecidableEq, Repr

/-- The `DWORD` that `GetTickCount()` returns in an iteration. -/
def Attempt.GetTickCount (a : Attempt) : Nat := a.tick % 4294967296

/-- The `return` statement by which a transfer loop leaves:
`full` is the one after the loop, `closed` is `return 0`,
`timedOut` is `return totalReadBytes` under `GetTickCount() > end`,
`error` is `return SOCKET_ERROR`. -/
inductive ReturnSite where
  | full
  | closed
  | timedOut
  | error
  deriving DecidableEq, Repr

/-- The effect of `recv(socket, pBuffer + off, len, 0)` storing `chunk`. -/
def writeAt (buf : List UInt8) (off : Nat) (chunk : List UInt8) : List UInt8 :=
  buf.take off ++ chunk ++ buf.drop (off + chunk.length)

/-- Local variables of `NetReadFromSocket` at the loop head, with the buffer
and the number of `recv` calls made so far. -/
structure ReadState where
  totalReadBytes : Int
  endTick : Nat
  buffer : List UInt8
  attempts : Nat
  deriving DecidableEq, Repr

/-- Outcome of running the loop of `NetReadFromSocket` on a finite list of
answers: it returned, or the answers ran out at the loop head with the loop
condition still true. -/
inductive ReadRun where
  | returned (site : ReturnSite) (ret : Int) (buffer : List UInt8) (attempts : Nat)
  | pending (st : ReadState)
  deriving DecidableEq, Repr

/-- The `while (totalReadBytes < size)` loop of `NetReadFromSocket`. -/
def readLoop (size timeout : Int) : List Attempt → ReadState → ReadRun
  | [], st =>
    if st.totalReadBytes < size then .pending st
    else .returned .full st.totalReadBytes st.buffer st.attempts
  | a :: rest, st =>
    if st.totalReadBytes < size then
      match a.io with
      | .count chunk =>
        let read : Int := chunk.length
        if read = 0 then
          .returned .closed 0 st.buffer (st.attempts + 1)
        else
          readLoop size timeout rest
            { totalReadBytes := st.totalReadBytes + read
              endTick := toDWORD (a.GetTickCount + timeout)
              buffer := writeAt st.buffer st.totalReadBytes.toNat chunk
              attempts := st.attempts + 1 }
      | .socketError lastError =>
        if lastError = WSAEWOULDBLOCK then
          if a.GetTickCount > st.endTick then
            .returned .timedOut st.totalReadBytes st.buffer (st.attempts + 1)
          else
            readLoop size timeout rest { st with attempts := st.attempts + 1 }
        else
          .returned .error SOCKET_ERROR st.buffer (st.attempts + 1)
    else .returned .full st.totalReadBytes st.buffer st.attempts

/-- The function `NetReadFromSocket(socket, pBuffer, size, timeout)`:
`startTick` is the first `GetTickCount()` reading, `atts` the answers of the
successive iterations. -/
def NetReadFromSocket (pBuffer : List UInt8) (size timeout : Int) (startTick : Nat)
    (atts : List Attempt) : ReadRun :=
  readLoop size timeout atts
    { totalReadBytes := 0
      endTick := toDWORD ((startTick % 4294967296 : Nat) + timeout)
      buffer := pBuffer
      attempts := 0 }

/-- Local variables of `NetSendToSocket` at the loop head, with the number of
`send` calls made so far. -/
structure SendState where
  totalSentBytes : Int
  endTick : Nat
  attempts : Nat
  deriving DecidableEq, Repr

/-- Outcome of running the loop of `NetSendToSocket` on a finite list of
answers. -/
inductive SendRun where
  | returned (site : ReturnSite) (ret : Int) (attempts : Nat)
  | pending (st : SendState)
  deriving DecidableEq, Repr

/-- The `while (totalSentBytes < size)` loop of `NetSendToSocket`. -/
def sendLoop (size timeout : Int) : List Attempt → SendState → SendRun
  | [], st =>
    if st.totalSentBytes < size then .pending st
    else .returned .full st.totalSentBytes st.attempts
  | a :: rest, st =>
    if st.totalSentBytes < size then
      match a.io with
      | .socketError lastError =>
        if lastError = WSAEWOULDBLOCK then
          if a.GetTickCount > st.endTick then
            .returned .timedOut st.totalSentBytes (st.attempts + 1)
          else
            sendLoop size timeout rest { st with attempts := st.attempts + 1 }
        else
          .returned .error SOCKET_ERROR (st.attempts + 1)
      | .count chunk =>
        let sent : Int := chunk.length
        sendLoop size timeout rest
          { totalSentBytes := st.totalSentBytes + sent
            endTick := toDWORD (a.GetTickCount + timeout)
            attempts := st.attempts + 1 }
    else .returned .full st.totalSentBytes st.attempts

/-- The function `NetSendToSocket(socket, pBuffer, size, timeout)`. -/
def NetSendToSocket (size timeout : Int) (startTick : Nat) (atts : List Attempt) : SendRun :=
  sendLoop size timeout atts
    { totalSentBytes := 0
      endTick := toDWORD ((startTick % 4294967296 : Nat) + timeout)
      attempts := 0 }

/-- The bytes an answer transfers (none for an answer that failed). -/
def Attempt.chunk (a : Attempt) : List UInt8 :=
  match a.io with
  | .count chunk => chunk
  | .socketError _ => []

/-- All bytes transferred by the answers of a run, in arrival order. -/
def transferred : List Attempt → List UInt8
  | [] => []
  | a :: rest => a.chunk ++ transferred rest

/-- The `GetTickCount()` reading of the most recent answer of a run that
transferred at least one byte, and `d` when there is none. -/
def lastProgressTick : Nat → List Attempt → Nat
  | d, [] => d
  | d, a :: rest =>
    match a.io with
    | .count [] => lastProgressTick d rest
    | .count (_ :: _) => lastProgressTick a.GetTickCount rest
    | .socketError _ => lastProgressTick d rest

/-- The run condition "the tick counter does not wrap and every would-block
answer is observed no later than `T` ticks after the start or after the most
recent answer that transferred at least one byte": `last` is the tick of
that answer (or of the start), `prev` the previous tick; the ticks do not
decrease and stay below `2^32`, and the tick of a would-block answer is at
most `last + T` as an integer. -/
def idleWithin (T : Nat) : Nat → Nat → List Attempt → Bool
  | _, _, [] => true
  | last, prev, a :: rest =>
    decide (prev ≤ a.tick) && decide (a.tick < 4294967296) &&
    match a.io with
    | .count [] => idleWithin T last a.tick rest
    | .count (_ :: _) => idleWithin T a.tick a.tick rest
    | .socketError e =>
      (e != WSAEWOULDBLOCK || decide (a.tick ≤ last + T)) && idleWithin T last a.tick rest

/-- The run condition "no deadline wraps": for every answer that reports a
count, after which the code sets `end = GetTickCount() + timeout`, the tick
plus `T` stays below `2^32`. -/
def deadlinesFit (T : Nat) : List Attempt → Bool
  | [] => true
  | a :: rest =>
    (match a.io with
      | .count _ => decide (a.tick + T < 4294967296)
      | .socketError _ => true) && deadlinesFit T rest

/-- The result of a read run with the buffer left out, as a send run. -/
def ReadRun.toSendRun : ReadRun → SendRun
  | .returned site ret _ n => .returned site ret n
  | .pending st => .pending ⟨st.totalReadBytes, st.endTick, st.attempts⟩

/-! ## The master set and the functions that change it -/

/-- Modelled from the spec: the macro `FD_SET` of winsock2.h is not among the
sources.  `register(handle)` adds a handle, registration is idempotent, the
set has no duplicates, and "the platform's descriptor-set capacity is the
only limit": a handle already present or a full set leaves the set as it is,
otherwise the handle is stored at `fd_array[fd_count]` and `fd_count` grows
by one.  The capacity `FD_SETSIZE` is a parameter. -/
def FD_SET (FD_SETSIZE : Nat) (fd : Int) (set : List Int) : List Int :=
  if fd ∈ set then set
  else if set.length < FD_SETSIZE then set ++ [fd]
  else set

/-- Modelled from the spec: the macro `FD_CLR` of winsock2.h is not among the
sources.  `unregister(handle)` removes the handle; the members stay in
`fd_array[0 .. fd_count)`, those after the removed one moving down by one
place, and `fd_count` shrinks by one. -/
def FD_CLR (fd : Int) (set : List Int) : List Int :=
  set.erase fd

/-- The global `g_netSocketsSet` as the list `fd_array[0 .. fd_count)`,
with what the operating system has been asked so far: the handles passed to
`closesocket`, in call order, and the handles that `ioctlsocket` has put in
non-blocking mode. -/
structure NetState where
  g_netSocketsSet : List Int
  closed : List Int
  nonBlocking : List Int
  deriving DecidableEq, Repr

/-- The function `NetCloseSocket(socket)`. -/
def NetCloseSocket (socket : Int) (s : NetState) : NetState :=
  { s with
    closed := s.closed ++ [socket]
    g_netSocketsSet := FD_CLR socket s.g_netSocketsSet }

/-- The loop `for (i = 0; i < g_netSocketsSet.fd_count; i++)` of `NetCleanup`
from index `i`, with at most `fuel` iterations. -/
def NetCleanupLoop : Nat → Nat → NetState → Option NetState
  | 0, i, s => if i < s.g_netSocketsSet.length then none else some s
  | fuel + 1, i, s =>
    if h : i < s.g_netSocketsSet.length then
      NetCleanupLoop fuel (i + 1) (NetCloseSocket (s.g_netSocketsSet.get ⟨i, h⟩) s)
    else some s

/-- The function `NetCleanup()`; `fd_count` iterations are enough, see
`NetCleanup_returns`. -/
def NetCleanup (s : NetState) : Option NetState :=
  NetCleanupLoop s.g_netSocketsSet.length 0 s

/-- Answers of the operating system to the calls of `NetOpenListenerSocket`
and `NetOpenConnectingSocket`: the values returned by `getaddrinfo`,
`socket`, `bind`, `listen`, `connect`, and the value `WSAGetLastError()`
gives when it is called. -/
structure OpenOs where
  getaddrinfo : Int
  socket : Int
  bind : Int
  listen : Int
  connect : Int
  lastError : Int
  deriving DecidableEq, Repr

/-- What an opening function leaves: its return value, the value of
`*pSocket`, and the state. -/
structure OpenResult where
  ret : Int
  pSocket : Int
  state : NetState
  deriving DecidableEq, Repr

/-- The function `NetOpenListenerSocket(pSocket, portNumberStr, backlog)`;
`pSocket` is the value `*pSocket` holds on entry. -/
def NetOpenListenerSocket (FD_SETSIZE : Nat) (os : OpenOs) (pSocket : Int) (s : NetState) :
    OpenResult :=
  if os.getaddrinfo ≠ 0 then ⟨os.lastError, pSocket, s⟩
  else if os.socket = INVALID_SOCKET then ⟨os.lastError, os.socket, s⟩
  else if os.bind = SOCKET_ERROR then ⟨os.lastError, os.socket, s⟩
  else if os.listen = SOCKET_ERROR then ⟨os.lastError, os.socket, s⟩
  else ⟨0, os.socket,
    { s with g_netSocketsSet := FD_SET FD_SETSIZE os.socket s.g_netSocketsSet }⟩

/-- The function `NetOpenConnectingSocket(pSocket, addressStr, portNumberStr)`. -/
def NetOpenConnectingSocket (FD_SETSIZE : Nat) (os : OpenOs) (pSocket : Int) (s : NetState) :
    OpenResult :=
  if os.getaddrinfo ≠ 0 then ⟨os.lastError, pSocket, s⟩
  else if os.socket = INVALID_SOCKET then ⟨os.lastError, os.socket, s⟩
  else if os.connect = SOCKET_ERROR then ⟨os.lastError, os.socket, s⟩
  else ⟨0, os.socket,
    { s with g_netSocketsSet := FD_SET FD_SETSIZE os.socket s.g_netSocketsSet }⟩

/-- Answers of the operating system to the calls of `NetOpenClientSocket`:
the values returned by `accept` and by `ioctlsocket` (which returns
`SOCKET_ERROR` when it could not set the mode), and the value
`WSAGetLastError()` gives when it is called. -/
structure AcceptOs where
  accept : Int
  ioctlsocket : Int
  lastError : Int
  deriving DecidableEq, Repr

/-- What `NetOpenClientSocket` leaves: its return value, the optional
out-parameter (`none` for a null pointer, else the value it points to), and
the state. -/
structure ClientResult where
  ret : Int
  pClientSocket : Option Int
  state : NetState
  deriving DecidableEq, Repr

/-- The function `NetOpenClientSocket(listenerSocket, pClientSocket)`. -/
def NetOpenClientSocket (FD_SETSIZE : Nat) (os : AcceptOs) (pClientSocket : Option Int)
    (s : NetState) : ClientResult :=
  let newSocket := os.accept
  if newSocket = SOCKET_ERROR then ⟨os.lastError, pClientSocket, s⟩
  else if os.ioctlsocket = SOCKET_ERROR then ⟨os.lastError, pClientSocket, s⟩
  else
    let s1 : NetState := { s with nonBlocking := s.nonBlocking ++ [newSocket] }
    ⟨0, pClientSocket.map (fun _ => newSocket),
      { s1 with g_netSocketsSet := FD_SET FD_SETSIZE newSocket s1.g_netSocketsSet }⟩

/-- A change of the registry: the `FD_SET` of an opening function that
succeeded with the handle `fd`, or the call `NetCloseSocket(fd)`. -/
inductive RegistryOp where
  | register (fd : Int)
  | unregister (fd : Int)
  deriving DecidableEq, Repr

/-- The state after one change of the registry. -/
def applyOp (FD_SETSIZE : Nat) (s : NetState) : RegistryOp → NetState
  | .register fd => { s with g_netSocketsSet := FD_SET FD_SETSIZE fd s.g_netSocketsSet }
  | .unregister fd => NetCloseSocket fd s

/-- The registry after a sequence of changes, starting from the empty
registry. -/
def registryAfter (FD_SETSIZE : Nat) (ops : List RegistryOp) : List Int :=
  (ops.foldl (applyOp FD_SETSIZE) ⟨[], [], []⟩).g_netSocketsSet

/-- The registry after a sequence of changes, starting from the state `s`. -/
def registryFrom (FD_SETSIZE : Nat) (s : NetState) (ops : List RegistryOp) : List Int :=
  (ops.foldl (applyOp FD_SETSIZE) s).g_netSocketsSet

/-- The run condition "at every registration the registry holds fewer than
`FD_SETSIZE` handles", for a sequence of changes starting from `s`. -/
def neverFull (FD_SETSIZE : Nat) : NetState → List RegistryOp → Bool
  | _, [] => true
  | s, .register fd :: rest =>
    decide (s.g_netSocketsSet.length < FD_SETSIZE)
      && neverFull FD_SETSIZE (applyOp FD_SETSIZE s (.register fd)) rest
  | s, .unregister fd :: rest =>
    neverFull FD_SETSIZE (applyOp FD_SETSIZE s (.unregister fd)) rest

/-- The handles `0, 1, ..., n - 1`. -/
def handles (n : Nat) : List Int := (List.range n).map Int.ofNat

/-! ## The polling functions -/

/-- Conversion of an integer to a 32-bit signed field (`int`, `long`), the
result of an `int` product that leaves the range wrapping around. -/
def toInt32 (x : Int) : Int := (x + 2147483648) % 4294967296 - 2147483648

/-- The structure `timeval` of winsock2.h: seconds and microseconds. -/
structure timeval where
  tv_sec : Int
  tv_usec : Int
  deriving DecidableEq, Repr

/-- The arguments of a call `select(0, readfds, writefds, NULL, timeout)`:
`none` stands for a null pointer, so `timeout = none` is a query without
time bound. -/
structure SelectCall where
  readfds : Option (List Int)
  writefds : Option (List Int)
  timeout : Option timeval
  deriving DecidableEq, Repr

/-- Answer of the operating system to a call of `select`: the value it
returns, the members it leaves in the set it was given, and the value
`WSAGetLastError()` gives when it is called. -/
structure SelectOs where
  status : Int
  ready : List Int
  lastError : Int
  deriving DecidableEq, Repr

/-- What a polling function leaves: its return value, the set its argument
points to, and the call of `select` it made. -/
structure PollResult where
  ret : Int
  pSockets : List Int
  call : SelectCall
  deriving DecidableEq, Repr

/-- The default argument `timeout = 0` that network.h declares for
`NetPollReadableSockets` and `NetPollWritableSockets`. -/
def defaultTimeout : Int := 0

/-- The function `NetPollReadableSockets(pReadSockets, timeout)`. -/
def NetPollReadableSockets (timeout : Int) (os : SelectOs) (s : NetState) : PollResult :=
  let pReadSockets := s.g_netSocketsSet
  let call : SelectCall :=
    if timeout > 0 then
      ⟨some pReadSockets, none, some ⟨0, toInt32 (timeout * 1000)⟩⟩
    else
      ⟨some pReadSockets, none, none⟩
  if os.status = SOCKET_ERROR then ⟨os.lastError, os.ready, call⟩
  else ⟨0, os.ready, call⟩

/-- The function `NetPollWritableSockets(pWriteSockets, timeout)`. -/
def NetPollWritableSockets (timeout : Int) (os : SelectOs) (s : NetState) : PollResult :=
  let pWriteSockets := s.g_netSocketsSet
  let call : SelectCall := ⟨none, some pWriteSockets, some ⟨0, timeout⟩⟩
  if os.status = SOCKET_ERROR then ⟨os.lastError, os.ready, call⟩
  else ⟨0, os.ready, call⟩

/-! ## Runs used by the claims on termination and bounds -/

/-- The answers of a peer that stays silent: `n` would-block answers, read
at the ticks `t`, `t + 1`, ..., `t + n - 1`. -/
def silentPeer (t : Nat) : Nat → List Attempt
  | 0 => []
  | n + 1 => ⟨.socketError WSAEWOULDBLOCK, t⟩ :: silentPeer (t + 1) n

/-- The offset and the length that the `recv` call made from the loop state
`st` requests: the arguments `pBuffer + totalReadBytes` and
`size - totalReadBytes`. -/
def recvRequest (size : Int) (st : ReadState) : Int × Int :=
  (st.totalReadBytes, size - st.totalReadBytes)

/-! ## Lemmas on the buffer -/

theorem writeAt_length (buf : List UInt8) (off : Nat) (chunk : List UInt8)
    (h : off + chunk.length ≤ buf.length) : (writeAt buf off chunk).length = buf.length := by
  simp only [writeAt, List.length_append, List.length_take, List.length_drop]
  omega

theorem take_writeAt (buf : List UInt8) (off : Nat) (chunk : List UInt8)
    (h : off ≤ buf.length) :
    (writeAt buf off chunk).take (off + chunk.length) = buf.take off ++ chunk := by
  have hl : (buf.take off ++ chunk).length = off + chunk.length := by
    simp only [List.length_append, List.length_take]; omega
  unfold writeAt
  rw [← hl, List.take_left]

theorem drop_writeAt (buf : List UInt8) (off n : Nat) (chunk : List UInt8)
    (h : off ≤ buf.length) (hn : off + chunk.length ≤ n) :
    (writeAt buf off chunk).drop n = buf.drop n := by
  have hl : (buf.take off ++ chunk).length = off + chunk.length := by
    simp only [List.length_append, List.length_take]; omega
  unfold writeAt
  rw [List.drop_append_eq_append_drop, hl, List.drop_drop]
  have h1 : (buf.take off ++ chunk).drop n = [] := by
    apply List.drop_eq_nil_of_le; omega
  rw [h1, List.nil_append]
  congr 1; omega

/-! ## Lemmas on the read loop -/

theorem readLoop_exact (N timeout : Int) :
    ∀ (atts : List Attempt) (st : ReadState),
      (∀ a ∈ atts, ∃ chunk, a.io = .count chunk ∧ chunk ≠ []) →
      0 ≤ st.totalReadBytes →
      st.totalReadBytes + ((transferred atts).length : Int) = N →
      N ≤ (st.buffer.length : Int) →
      readLoop N timeout atts st =
        .returned .full N
          (st.buffer.take st.totalReadBytes.toNat ++ transferred atts ++ st.buffer.drop N.toNat)
          (st.attempts + atts.length) := by
  intro atts
  induction atts with
  | nil =>
    intro st _ h0 hsum hbuf
    simp only [transferred, List.length_nil, Int.ofNat_zero, add_zero, Nat.cast_zero] at hsum
    subst hsum
    simp only [readLoop, lt_irrefl, if_false, transferred, List.append_nil, List.length_nil,
      Nat.add_zero, List.take_append_drop]
  | cons a rest ih =>
    intro st hok h0 hsum hbuf
    obtain ⟨chunk, hio, hne⟩ := hok a (List.mem_cons_self _ _)
    have hlen : 0 < chunk.length := List.length_pos.mpr hne
    have hch : a.chunk = chunk := by simp [Attempt.chunk, hio]
    simp only [transferred, hch, List.length_append, Nat.cast_add] at hsum
    have hlt : st.totalReadBytes < N := by omega
    have hnz : ¬ ((chunk.length : Int) = 0) := by omega
    simp only [readLoop, hlt, if_true, hio, hnz, if_false]
    have htn : (st.totalReadBytes + (chunk.length : Int)).toNat
        = st.totalReadBytes.toNat + chunk.length := by omega
    have hoff : st.totalReadBytes.toNat ≤ st.buffer.length := by omega
    rw [ih _ (fun b hb => hok b (List.mem_cons_of_mem _ hb))]
    · simp only [htn, transferred, hch]
      rw [take_writeAt _ _ _ hoff, drop_writeAt _ _ _ _ hoff (by omega)]
      simp only [List.append_assoc, List.length_cons]
      congr 1; omega
    · simp only; omega
    · simp only; omega
    · simp only
      rw [writeAt_length _ _ _ (by omega)]
      exact hbuf

theorem readLoop_done (size timeout : Int) (atts : List Attempt) (st : ReadState)
    (h : ¬ st.totalReadBytes < size) :
    readLoop size timeout atts st = .returned .full st.totalReadBytes st.buffer st.attempts := by
  cases atts <;> simp [readLoop, h]

theorem readLoop_append (size timeout : Int) :
    ∀ (pre rest : List Attempt) (st : ReadState),
      readLoop size timeout (pre ++ rest) st =
        match readLoop size timeout pre st with
        | .pending st1 => readLoop size timeout rest st1
        | r => r := by
  intro pre
  induction pre with
  | nil =>
    intro rest st
    by_cases h : st.totalReadBytes < size
    · simp [readLoop, h]
    · simp [readLoop, h, readLoop_done]
  | cons a pre ih =>
    intro rest st
    by_cases h : st.totalReadBytes < size
    · simp only [List.cons_append, readLoop, h, if_true]
      cases hio : a.io with
      | count chunk =>
        simp only
        by_cases hz : (chunk.length : Int) = 0
        · simp [hz]
        · simp only [hz, if_false]; exact ih _ _
      | socketError e =>
        simp only
        by_cases he : e = WSAEWOULDBLOCK
        · by_cases ht : a.GetTickCount > st.endTick
          · simp [he, ht]
          · simp only [he, ht, if_true, if_false]; exact ih _ _
        · simp [he]
    · simp [readLoop, h]

theorem readLoop_pending (size timeout : Int) :
    ∀ (pre : List Attempt) (st st1 : ReadState) (d : Nat),
      readLoop size timeout pre st = .pending st1 →
      st.endTick = toDWORD ((d : Int) + timeout) →
      st1.attempts = st.attempts + pre.length ∧
      st1.totalReadBytes = st.totalReadBytes + ((transferred pre).length : Int) ∧
      st1.totalReadBytes < size ∧
      st1.endTick = toDWORD ((lastProgressTick d pre : Nat) + timeout) := by
  intro pre
  induction pre with
  | nil =>
    intro st st1 d h hd
    by_cases hlt : st.totalReadBytes < size
    · simp only [readLoop, hlt, if_true, ReadRun.pending.injEq] at h
      subst h
      simp [transferred, lastProgressTick, hd, hlt]
    · simp [readLoop, hlt] at h
  | cons a pre ih =>
    intro st st1 d h hd
    by_cases hlt : st.totalReadBytes < size
    · simp only [readLoop, hlt, if_true] at h
      cases hio : a.io with
      | count chunk =>
        rw [hio] at h
        simp only at h
        by_cases hz : (chunk.length : Int) = 0
        · simp [hz] at h
        · simp only [hz, if_false] at h
          obtain ⟨h1, h2, h3, h4⟩ := ih _ _ a.GetTickCount h rfl
          have hch : a.chunk = chunk := by simp [Attempt.chunk, hio]
          cases chunk with
          | nil => simp at hz
          | cons b bs =>
            simp only [lastProgressTick, hio, transferred, hch, List.length_append, List.length_cons,
              Nat.cast_add] at *
            refine ⟨by omega, by omega, h3, h4⟩
      | socketError e =>
        rw [hio] at h
        simp only at h
        by_cases he : e = WSAEWOULDBLOCK
        · by_cases ht : a.GetTickCount > st.endTick
          · simp [he, ht] at h
          · simp only [he, ht, if_true, if_false] at h
            obtain ⟨h1, h2, h3, h4⟩ := ih _ _ d h hd
            have hch : a.chunk = [] := by simp [Attempt.chunk, hio]
            simp only [lastProgressTick, hio, transferred, hch, List.length_append, List.length_nil,
              List.length_cons, Nat.cast_add, List.nil_append] at *
            refine ⟨by omega, by omega, h3, h4⟩
        · simp [he] at h
    · simp [readLoop, hlt] at h

theorem readLoop_wouldBlock (size timeout : Int) :
    ∀ (blocks : List Attempt) (st : ReadState),
      st.totalReadBytes < size →
      (∀ a ∈ blocks, a.io = .socketError WSAEWOULDBLOCK) →
      (∃ a ∈ blocks, st.endTick < a.GetTickCount) →
      ∃ n, st.attempts < n ∧ n ≤ st.attempts + blocks.length ∧
        readLoop size timeout blocks st
          = .returned .timedOut st.totalReadBytes st.buffer n := by
  intro blocks
  induction blocks with
  | nil =>
    intro st _ _ hex
    obtain ⟨a, ha, _⟩ := hex
    simp at ha
  | cons b blocks ih =>
    intro st hlt hall hex
    have hb := hall b (List.mem_cons_self _ _)
    by_cases ht : b.GetTickCount > st.endTick
    · refine ⟨st.attempts + 1, by omega, by simp, ?_⟩
      simp [readLoop, hlt, hb, ht]
    · have hex1 : ∃ a ∈ blocks, st.endTick < a.GetTickCount := by
        obtain ⟨a, ha, hat⟩ := hex
        rcases List.mem_cons.mp ha with rfl | ha1
        · exact absurd hat ht
        · exact ⟨a, ha1, hat⟩
      obtain ⟨n, h1, h2, h3⟩ :=
        ih { st with attempts := st.attempts + 1 } hlt
          (fun a ha => hall a (List.mem_cons_of_mem _ ha)) hex1
      refine ⟨n, ?_, ?_, ?_⟩
      · simp only at h1; omega
      · simp only [List.length_cons] at h2 ⊢; omega
      · simp only [readLoop, hlt, if_true, hb, ht, if_false]
        exact h3

theorem toDWORD_add (t T : Nat) (h : t + T < 4294967296) :
    toDWORD ((t : Int) + (T : Int)) = t + T := by
  unfold toDWORD; omega

theorem GetTickCount_eq (a : Attempt) (h : a.tick < 4294967296) :
    a.GetTickCount = a.tick := by
  unfold Attempt.GetTickCount; omega

theorem readLoop_idle (size : Int) (T : Nat) :
    ∀ (atts : List Attempt) (st : ReadState) (last prev : Nat),
      idleWithin T last prev atts = true →
      deadlinesFit T atts = true →
      last + T ≤ st.endTick →
      ∀ ret buf n, readLoop size T atts st ≠ .returned .timedOut ret buf n := by
  intro atts
  induction atts with
  | nil =>
    intro st last prev _ _ _ ret buf n
    by_cases hlt : st.totalReadBytes < size <;> simp [readLoop, hlt]
  | cons a rest ih =>
    intro st last prev hidle hfit hend ret buf n
    by_cases hlt : st.totalReadBytes < size
    · simp only [idleWithin, Bool.and_eq_true, decide_eq_true_eq] at hidle
      obtain ⟨⟨_, hw⟩, hrest⟩ := hidle
      simp only [deadlinesFit, Bool.and_eq_true] at hfit
      obtain ⟨hfa, hfrest⟩ := hfit
      have hg := GetTickCount_eq a hw
      simp only [readLoop, hlt, if_true]
      cases hio : a.io with
      | count chunk =>
        rw [hio] at hrest hfa
        simp only [decide_eq_true_eq] at hfa
        cases chunk with
        | nil => simp
        | cons b bs =>
          simp only at hrest
          have hz : ¬ (((b :: bs).length : Int) = 0) := by simp; omega
          simp only [hz, if_false]
          exact ih _ a.tick a.tick hrest hfrest (by simp only [hg, toDWORD_add _ _ hfa]; omega) ret buf n
      | socketError e =>
        rw [hio] at hrest
        simp only [Bool.and_eq_true, Bool.or_eq_true, bne_iff_ne, ne_eq,
          decide_eq_true_eq] at hrest
        obtain ⟨hwb, hrest⟩ := hrest
        by_cases he : e = WSAEWOULDBLOCK
        · have hle : a.tick ≤ last + T := by
            rcases hwb with h | h
            · exact absurd he h
            · exact h
          have ht : ¬ (a.GetTickCount > st.endTick) := by rw [hg]; omega
          simp only [he, ht, if_true, if_false]
          exact ih { st with attempts := st.attempts + 1 } last a.tick hrest hfrest hend ret buf n
        · simp [he]
    · simp [readLoop, hlt]

theorem sendLoop_idle (size : Int) (T : Nat) :
    ∀ (atts : List Attempt) (st : SendState) (last prev : Nat),
      idleWithin T last prev atts = true →
      deadlinesFit T atts = true →
      last ≤ prev →
      last + T ≤ st.endTick →
      ∀ ret n, sendLoop size T atts st ≠ .returned .timedOut ret n := by
  intro atts
  induction atts with
  | nil =>
    intro st last prev _ _ _ _ ret n
    by_cases hlt : st.totalSentBytes < size <;> simp [sendLoop, hlt]
  | cons a rest ih =>
    intro st last prev hidle hfit hlp hend ret n
    by_cases hlt : st.totalSentBytes < size
    · simp only [idleWithin, Bool.and_eq_true, decide_eq_true_eq] at hidle
      obtain ⟨⟨hmono, hw⟩, hrest⟩ := hidle
      simp only [deadlinesFit, Bool.and_eq_true] at hfit
      obtain ⟨hfa, hfrest⟩ := hfit
      have hg := GetTickCount_eq a hw
      simp only [sendLoop, hlt, if_true]
      cases hio : a.io with
      | count chunk =>
        rw [hio] at hrest hfa
        simp only [decide_eq_true_eq] at hfa
        simp only
        cases chunk with
        | nil =>
          simp only at hrest
          exact ih _ last a.tick hrest hfrest (by omega)
            (by simp only [hg, toDWORD_add _ _ hfa]; omega) ret n
        | cons b bs =>
          simp only at hrest
          exact ih _ a.tick a.tick hrest hfrest (le_refl _)
            (by simp only [hg, toDWORD_add _ _ hfa]; omega) ret n
      | socketError e =>
        rw [hio] at hrest
        simp only [Bool.and_eq_true, Bool.or_eq_true, bne_iff_ne, ne_eq,
          decide_eq_true_eq] at hrest
        obtain ⟨hwb, hrest⟩ := hrest
        by_cases he : e = WSAEWOULDBLOCK
        · have hle : a.tick ≤ last + T := by
            rcases hwb with h | h
            · exact absurd he h
            · exact h
          have ht : ¬ (a.GetTickCount > st.endTick) := by rw [hg]; omega
          simp only [he, ht, if_true, if_false]
          exact ih { st with attempts := st.attempts + 1 } last a.tick hrest hfrest (by omega) hend ret n
        · simp [he]
    · simp [sendLoop, hlt]

theorem readLoop_idle_full (N : Int) (T : Nat) :
    ∀ (atts : List Attempt) (st : ReadState) (last prev : Nat),
      idleWithin T last prev atts = true →
      deadlinesFit T atts = true →
      last + T ≤ st.endTick →
      (∀ a ∈ atts, a.io ≠ .count [] ∧ ∀ e, a.io = .socketError e → e = WSAEWOULDBLOCK) →
      st.totalReadBytes + ((transferred atts).length : Int) = N →
      ∃ buf n, readLoop N T atts st = .returned .full N buf n := by
  intro atts
  induction atts with
  | nil =>
    intro st last prev _ _ _ _ hsum
    simp only [transferred, List.length_nil, Nat.cast_zero, add_zero] at hsum
    exact ⟨st.buffer, st.attempts, by rw [readLoop_done _ _ _ _ (by omega), hsum]⟩
  | cons a rest ih =>
    intro st last prev hidle hfit hend hok hsum
    by_cases hlt : st.totalReadBytes < N
    · simp only [idleWithin, Bool.and_eq_true, decide_eq_true_eq] at hidle
      obtain ⟨⟨_, hw⟩, hrest⟩ := hidle
      simp only [deadlinesFit, Bool.and_eq_true] at hfit
      obtain ⟨hfa, hfrest⟩ := hfit
      have hg := GetTickCount_eq a hw
      obtain ⟨hnc, hne⟩ := hok a (List.mem_cons_self _ _)
      have hok1 : ∀ b ∈ rest,
          b.io ≠ .count [] ∧ ∀ e, b.io = .socketError e → e = WSAEWOULDBLOCK :=
        fun b hb => hok b (List.mem_cons_of_mem _ hb)
      simp only [readLoop, hlt, if_true]
      cases hio : a.io with
      | count chunk =>
        rw [hio] at hrest hfa
        simp only [decide_eq_true_eq] at hfa
        have hch : a.chunk = chunk := by simp [Attempt.chunk, hio]
        cases chunk with
        | nil => exact absurd hio hnc
        | cons b bs =>
          simp only at hrest
          have hz : ¬ (((b :: bs).length : Int) = 0) := by simp; omega
          simp only [hz, if_false]
          refine ih _ a.tick a.tick hrest hfrest (by simp only [hg, toDWORD_add _ _ hfa]; omega) hok1 ?_
          simp only [transferred, hch, List.length_append, Nat.cast_add] at hsum
          simp only; omega
      | socketError e =>
        rw [hio] at hrest
        simp only [Bool.and_eq_true, Bool.or_eq_true, bne_iff_ne, ne_eq,
          decide_eq_true_eq] at hrest
        obtain ⟨hwb, hrest⟩ := hrest
        have he : e = WSAEWOULDBLOCK := hne e hio
        have hle : a.tick ≤ last + T := by
          rcases hwb with h | h
          · exact absurd he h
          · exact h
        have ht : ¬ (a.GetTickCount > st.endTick) := by rw [hg]; omega
        have hch : a.chunk = [] := by simp [Attempt.chunk, hio]
        simp only [he, ht, if_true, if_false]
        refine ih { st with attempts := st.attempts + 1 } last a.tick hrest hfrest hend hok1 ?_
        simp only [transferred, hch, List.nil_append] at hsum
        exact hsum
    · have hge : 0 ≤ ((transferred (a :: rest)).length : Int) := Int.natCast_nonneg _
      have heq : st.totalReadBytes = N := by omega
      exact ⟨st.buffer, st.attempts, by rw [readLoop_done _ _ _ _ hlt, heq]⟩

theorem sendLoop_done (size timeout : Int) (atts : List Attempt) (st : SendState)
    (h : ¬ st.totalSentBytes < size) :
    sendLoop size timeout atts st = .returned .full st.totalSentBytes st.attempts := by
  cases atts <;> simp [sendLoop, h]

theorem sendLoop_idle_full (N : Int) (T : Nat) :
    ∀ (atts : List Attempt) (st : SendState) (last prev : Nat),
      idleWithin T last prev atts = true →
      deadlinesFit T atts = true →
      last ≤ prev →
      last + T ≤ st.endTick →
      (∀ a ∈ atts, ∀ e, a.io = .socketError e → e = WSAEWOULDBLOCK) →
      st.totalSentBytes + ((transferred atts).length : Int) = N →
      ∃ n, sendLoop N T atts st = .returned .full N n := by
  intro atts
  induction atts with
  | nil =>
    intro st last prev _ _ _ _ _ hsum
    simp only [transferred, List.length_nil, Nat.cast_zero, add_zero] at hsum
    exact ⟨st.attempts, by rw [sendLoop_done _ _ _ _ (by omega), hsum]⟩
  | cons a rest ih =>
    intro st last prev hidle hfit hlp hend hok hsum
    by_cases hlt : st.totalSentBytes < N
    · simp only [idleWithin, Bool.and_eq_true, decide_eq_true_eq] at hidle
      obtain ⟨⟨hmono, hw⟩, hrest⟩ := hidle
      simp only [deadlinesFit, Bool.and_eq_true] at hfit
      obtain ⟨hfa, hfrest⟩ := hfit
      have hg := GetTickCount_eq a hw
      have hne := hok a (List.mem_cons_self _ _)
      have hok1 : ∀ b ∈ rest, ∀ e, b.io = .socketError e → e = WSAEWOULDBLOCK :=
        fun b hb => hok b (List.mem_cons_of_mem _ hb)
      simp only [sendLoop, hlt, if_true]
      cases hio : a.io with
      | count chunk =>
        rw [hio] at hrest hfa
        simp only [decide_eq_true_eq] at hfa
        have hch : a.chunk = chunk := by simp [Attempt.chunk, hio]
        simp only [transferred, hch, List.length_append, Nat.cast_add] at hsum
        simp only
        cases chunk with
        | nil =>
          simp only at hrest
          refine ih _ last a.tick hrest hfrest (by omega)
            (by simp only [hg, toDWORD_add _ _ hfa]; omega) hok1 ?_
          simp only; omega
        | cons b bs =>
          simp only at hrest
          refine ih _ a.tick a.tick hrest hfrest (le_refl _)
            (by simp only [hg, toDWORD_add _ _ hfa]; omega) hok1 ?_
          simp only; omega
      | socketError e =>
        rw [hio] at hrest
        simp only [Bool.and_eq_true, Bool.or_eq_true, bne_iff_ne, ne_eq,
          decide_eq_true_eq] at hrest
        obtain ⟨hwb, hrest⟩ := hrest
        have he : e = WSAEWOULDBLOCK := hne e hio
        have hle : a.tick ≤ last + T := by
          rcases hwb with h | h
          · exact absurd he h
          · exact h
        have ht : ¬ (a.GetTickCount > st.endTick) := by rw [hg]; omega
        have hch : a.chunk = [] := by simp [Attempt.chunk, hio]
        simp only [he, ht, if_true, if_false]
        refine ih { st with attempts := st.attempts + 1 } last a.tick hrest hfrest (by omega) hend hok1 ?_
        simp only [transferred, hch, List.nil_append] at hsum
        exact hsum
    · have hge : 0 ≤ ((transferred (a :: rest)).length : Int) := Int.natCast_nonneg _
      have heq : st.totalSentBytes = N := by omega
      exact ⟨st.attempts, by rw [sendLoop_done _ _ _ _ hlt, heq]⟩

theorem readLoop_toSendRun (size timeout : Int) :
    ∀ (atts : List Attempt) (st : ReadState),
      (∀ a ∈ atts, a.io ≠ .count []) →
      (readLoop size timeout atts st).toSendRun
        = sendLoop size timeout atts ⟨st.totalReadBytes, st.endTick, st.attempts⟩ := by
  intro atts
  induction atts with
  | nil =>
    intro st _
    by_cases hlt : st.totalReadBytes < size <;> simp [readLoop, sendLoop, hlt, ReadRun.toSendRun]
  | cons a rest ih =>
    intro st hnz
    have hnc := hnz a (List.mem_cons_self _ _)
    have hnz1 : ∀ b ∈ rest, b.io ≠ .count [] := fun b hb => hnz b (List.mem_cons_of_mem _ hb)
    by_cases hlt : st.totalReadBytes < size
    · simp only [readLoop, sendLoop, hlt, if_true]
      cases hio : a.io with
      | count chunk =>
        cases chunk with
        | nil => exact absurd hio hnc
        | cons b bs =>
          have hz : ¬ (((b :: bs).length : Int) = 0) := by simp; omega
          simp only [hz, if_false]
          exact ih _ hnz1
      | socketError e =>
        simp only
        by_cases he : e = WSAEWOULDBLOCK
        · by_cases ht : a.GetTickCount > st.endTick
          · simp [he, ht, ReadRun.toSendRun]
          · simp only [he, ht, if_true, if_false]
            exact ih { st with attempts := st.attempts + 1 } hnz1
        · simp [he, ReadRun.toSendRun]
    · simp [readLoop, sendLoop, hlt, ReadRun.toSendRun]

/-! ## Claims on `NetReadFromSocket` -/

/-- C1: for a size `N > 0`, any timeout, and a sequence of successful reads
of at least one byte each whose counts sum to `N` (however the bytes are
split), `NetReadFromSocket` returns `N` by the statement after the loop,
after one `recv` per chunk, and the first `N` bytes of the buffer are the
chunks concatenated in arrival order. -/
theorem NetReadFromSocket_exact (pBuffer : List UInt8) (N timeout : Int) (startTick : Nat)
    (atts : List Attempt)
    (hbuf : N ≤ (pBuffer.length : Int))
    (hok : ∀ a ∈ atts, ∃ chunk, a.io = .count chunk ∧ chunk ≠ [])
    (hsum : ((transferred atts).length : Int) = N) :
    NetReadFromSocket pBuffer N timeout startTick atts
      = .returned .full N (transferred atts ++ pBuffer.drop N.toNat) atts.length := by
  have h := readLoop_exact N timeout atts
    { totalReadBytes := 0
      endTick := toDWORD ((startTick % 4294967296 : Nat) + timeout)
      buffer := pBuffer
      attempts := 0 } hok (le_refl _) (by simpa using hsum) hbuf
  simpa [NetReadFromSocket] using h

/-- Witness of C1: the payload "hello" arriving as "he" then "llo". -/
theorem NetReadFromSocket_exact_witness :
    NetReadFromSocket [0, 0, 0, 0, 0, 0] 5 1000 7
        [⟨.count [104, 101], 8⟩, ⟨.count [108, 108, 111], 9⟩]
      = .returned .full 5 [104, 101, 108, 108, 111, 0] 2 :=
  NetReadFromSocket_exact [0, 0, 0, 0, 0, 0] 5 1000 7
    [⟨.count [104, 101], 8⟩, ⟨.count [108, 108, 111], 9⟩]
    (by decide) (by simp) (by decide)

/-- C2: when a `recv` call made by `NetReadFromSocket` returns zero, the
function returns 0 by `return 0` at that call, whatever was read before and
whatever would come after; in particular when it is the first call. -/
theorem NetReadFromSocket_closed (pBuffer : List UInt8) (size timeout : Int) (startTick : Nat)
    (a : Attempt) (post : List Attempt)
    (hsize : 0 < size)
    (ha : a.io = .count []) :
    (∀ (pre : List Attempt) (st : ReadState),
      NetReadFromSocket pBuffer size timeout startTick pre = .pending st →
      NetReadFromSocket pBuffer size timeout startTick (pre ++ a :: post)
        = .returned .closed 0 st.buffer (pre.length + 1)) ∧
    NetReadFromSocket pBuffer size timeout startTick (a :: post)
      = .returned .closed 0 pBuffer 1 := by
  constructor
  · intro pre st hpre
    unfold NetReadFromSocket at hpre ⊢
    obtain ⟨h1, _, h3, _⟩ := readLoop_pending size timeout pre _ st _ hpre rfl
    rw [readLoop_append, hpre]
    simp only at h1 ⊢
    simp [readLoop, h3, ha, h1]
  · simp [NetReadFromSocket, readLoop, hsize, ha]

/-- Witness of C2: two bytes are read, then the peer closes; the answer
that follows the close is never requested. -/
theorem NetReadFromSocket_closed_witness :
    NetReadFromSocket [0, 0, 0, 0, 0] 5 1000 7 [⟨.count [1, 2], 8⟩]
      = .pending ⟨2, 1008, [1, 2, 0, 0, 0], 1⟩ ∧
    NetReadFromSocket [0, 0, 0, 0, 0] 5 1000 7
        ([⟨.count [1, 2], 8⟩] ++ (⟨.count [], 9⟩ : Attempt) :: [⟨.count [3], 10⟩])
      = .returned .closed 0 [1, 2, 0, 0, 0] 2 :=
  ⟨by decide,
   (NetReadFromSocket_closed [0, 0, 0, 0, 0] 5 1000 7 ⟨.count [], 9⟩ [⟨.count [3], 10⟩]
      (by decide) rfl).1 [⟨.count [1, 2], 8⟩] ⟨2, 1008, [1, 2, 0, 0, 0], 1⟩ (by decide)⟩

/-- C3: when the loop of `NetReadFromSocket` is still running after answers
whose successful reads total `k` bytes, the timeout is not negative, every
later answer is would-block, and one of them is observed at a reading
strictly past the last deadline (the reading of the last progress, or of the
start, plus the timeout, as an integer: nothing wraps), the function returns
`k` by `return totalReadBytes`, at one of these later answers; `k` is a
count in `[0, N)` and is not `SOCKET_ERROR`. -/
theorem NetReadFromSocket_partial (pBuffer : List UInt8) (N k timeout : Int) (startTick : Nat)
    (pre blocks : List Attempt) (st : ReadState)
    (hT : 0 ≤ timeout)
    (hpre : NetReadFromSocket pBuffer N timeout startTick pre = .pending st)
    (hk : ((transferred pre).length : Int) = k)
    (hblocks : ∀ a ∈ blocks, a.io = .socketError WSAEWOULDBLOCK)
    (hpast : ∃ a ∈ blocks,
      (lastProgressTick (startTick % 4294967296) pre : Int) + timeout < a.GetTickCount) :
    0 ≤ k ∧ k < N ∧ k ≠ SOCKET_ERROR ∧
    ∃ n, pre.length < n ∧ n ≤ pre.length + blocks.length ∧
      NetReadFromSocket pBuffer N timeout startTick (pre ++ blocks)
        = .returned .timedOut k st.buffer n := by
  unfold NetReadFromSocket at hpre ⊢
  obtain ⟨h1, h2, h3, h4⟩ := readLoop_pending N timeout pre _ st _ hpre rfl
  simp only [zero_add] at h1 h2
  rw [hk] at h2
  have hex : ∃ a ∈ blocks, st.endTick < a.GetTickCount := by
    obtain ⟨a, ha, hat⟩ := hpast
    refine ⟨a, ha, ?_⟩
    have hlt : a.GetTickCount < 4294967296 := Nat.mod_lt _ (by decide)
    rw [h4]
    unfold toDWORD
    omega
  obtain ⟨n, hn1, hn2, hn3⟩ := readLoop_wouldBlock N timeout blocks st h3 hblocks hex
  refine ⟨by omega, by omega, by unfold SOCKET_ERROR; omega, n, by omega, by omega, ?_⟩
  rw [readLoop_append, hpre]
  simp only
  rw [hn3, h2]

/-- Witness of C3: two of five bytes arrive at tick 8, the timeout is 1000;
would-block at ticks 500 and 1008 does not end the call, would-block at
tick 1009 does. -/
theorem NetReadFromSocket_partial_witness :
    0 ≤ (2 : Int) ∧ (2 : Int) < 5 ∧ (2 : Int) ≠ SOCKET_ERROR ∧
    ∃ n, [(⟨.count [1, 2], 8⟩ : Attempt)].length < n ∧
      n ≤ [(⟨.count [1, 2], 8⟩ : Attempt)].length
        + [(⟨.socketError WSAEWOULDBLOCK, 500⟩ : Attempt),
            ⟨.socketError WSAEWOULDBLOCK, 1008⟩, ⟨.socketError WSAEWOULDBLOCK, 1009⟩].length ∧
      NetReadFromSocket [0, 0, 0, 0, 0] 5 1000 7
          ([⟨.count [1, 2], 8⟩] ++
            [⟨.socketError WSAEWOULDBLOCK, 500⟩, ⟨.socketError WSAEWOULDBLOCK, 1008⟩,
              ⟨.socketError WSAEWOULDBLOCK, 1009⟩])
        = .returned .timedOut 2 [1, 2, 0, 0, 0] n :=
  NetReadFromSocket_partial [0, 0, 0, 0, 0] 5 2 1000 7 [⟨.count [1, 2], 8⟩]
    [⟨.socketError WSAEWOULDBLOCK, 500⟩, ⟨.socketError WSAEWOULDBLOCK, 1008⟩,
      ⟨.socketError WSAEWOULDBLOCK, 1009⟩]
    ⟨2, 1008, [1, 2, 0, 0, 0], 1⟩
    (by decide) (by decide) (by decide) (by simp)
    ⟨⟨.socketError WSAEWOULDBLOCK, 1009⟩, by simp, by decide⟩

/-- C5: when a `recv` call made by `NetReadFromSocket` returns `SOCKET_ERROR`
with a code other than `WSAEWOULDBLOCK`, the function returns `SOCKET_ERROR`
by `return SOCKET_ERROR` at that call, whatever was read before, whatever
the deadline and the tick reading are, and whatever would come after. -/
theorem NetReadFromSocket_error (pBuffer : List UInt8) (size timeout : Int) (startTick : Nat)
    (pre : List Attempt) (st : ReadState) (a : Attempt) (post : List Attempt) (e : Int)
    (hpre : NetReadFromSocket pBuffer size timeout startTick pre = .pending st)
    (ha : a.io = .socketError e)
    (he : e ≠ WSAEWOULDBLOCK) :
    NetReadFromSocket pBuffer size timeout startTick (pre ++ a :: post)
      = .returned .error SOCKET_ERROR st.buffer (pre.length + 1) := by
  unfold NetReadFromSocket at hpre ⊢
  obtain ⟨h1, _, h3, _⟩ := readLoop_pending size timeout pre _ st _ hpre rfl
  rw [readLoop_append, hpre]
  simp only at h1 ⊢
  simp [readLoop, h3, ha, he, h1]

/-- Witness of C5: two bytes are read, then `recv` fails with WSAECONNRESET
(10054) at a reading past the deadline; the result is `SOCKET_ERROR`, not
the count 2. -/
theorem NetReadFromSocket_error_witness :
    NetReadFromSocket [0, 0, 0, 0, 0] 5 1000 7
        ([⟨.count [1, 2], 8⟩] ++ (⟨.socketError 10054, 5000⟩ : Attempt) :: [⟨.count [3], 10⟩])
      = .returned .error SOCKET_ERROR [1, 2, 0, 0, 0] ([(⟨.count [1, 2], 8⟩ : Attempt)].length + 1) :=
  NetReadFromSocket_error [0, 0, 0, 0, 0] 5 1000 7 [⟨.count [1, 2], 8⟩]
    ⟨2, 1008, [1, 2, 0, 0, 0], 1⟩ ⟨.socketError 10054, 5000⟩ [⟨.count [3], 10⟩] 10054
    (by decide) rfl (by decide)

/-! ## Claims on both transfer loops -/

/-- When no deadline wraps, the deadline of both loops is idle-reset: for
every size `N`, timeout `T` and run in which the start tick and every tick
that sets a deadline stay below `2^32 - T`, the tick counter does not wrap
and every would-block answer is observed no later than `T` ticks after the
start or after the most recent answer that transferred at least one byte,
neither function leaves by the deadline test; and when the run has no close
and no hard error and transfers `N` bytes in all, each function returns `N`
by the statement after the loop. -/
theorem idle_reset_of_deadlinesFit (pBuffer : List UInt8) (N : Int) (T startTick : Nat)
    (atts : List Attempt)
    (hstart : startTick + T < 4294967296)
    (hidle : idleWithin T startTick startTick atts = true)
    (hfit : deadlinesFit T atts = true) :
    (∀ ret buf n,
      NetReadFromSocket pBuffer N T startTick atts ≠ .returned .timedOut ret buf n) ∧
    (∀ ret n, NetSendToSocket N T startTick atts ≠ .returned .timedOut ret n) ∧
    ((∀ a ∈ atts, a.io ≠ .count [] ∧ ∀ e, a.io = .socketError e → e = WSAEWOULDBLOCK) →
      ((transferred atts).length : Int) = N →
      ∃ buf n, NetReadFromSocket pBuffer N T startTick atts = .returned .full N buf n) ∧
    ((∀ a ∈ atts, ∀ e, a.io = .socketError e → e = WSAEWOULDBLOCK) →
      ((transferred atts).length : Int) = N →
      ∃ n, NetSendToSocket N T startTick atts = .returned .full N n) := by
  have hs : startTick % 4294967296 = startTick := by omega
  have hend : toDWORD (((startTick % 4294967296 : Nat) : Int) + (T : Int)) = startTick + T := by
    rw [hs]; exact toDWORD_add _ _ hstart
  refine ⟨?_, ?_, ?_, ?_⟩
  · intro ret buf n
    exact readLoop_idle N T atts _ startTick startTick hidle hfit
      (by simp only [hend]; omega) ret buf n
  · intro ret n
    exact sendLoop_idle N T atts _ startTick startTick hidle hfit (le_refl _)
      (by simp only [hend]; omega) ret n
  · intro hok hsum
    exact readLoop_idle_full N T atts _ startTick startTick hidle hfit
      (by simp only [hend]; omega) hok (by simpa using hsum)
  · intro hok hsum
    exact sendLoop_idle_full N T atts _ startTick startTick hidle hfit (le_refl _)
      (by simp only [hend]; omega) hok (by simpa using hsum)

/-- An instance of `idle_reset_of_deadlinesFit`: three bytes with timeout 10,
one byte at ticks 8, 17 and 26 with would-block answers in between; the
transfer ends at tick 26, well past 10 ticks after the start. -/
theorem idle_reset_of_deadlinesFit_instance :
    NetReadFromSocket [0, 0, 0] 3 (10 : Nat) 0
        [⟨.count [1], 8⟩, ⟨.socketError WSAEWOULDBLOCK, 15⟩, ⟨.count [2], 17⟩,
          ⟨.socketError WSAEWOULDBLOCK, 25⟩, ⟨.count [3], 26⟩]
      = .returned .full 3 [1, 2, 3] 5 ∧
    ∀ ret n, NetSendToSocket 3 (10 : Nat) 0
        [⟨.count [1], 8⟩, ⟨.socketError WSAEWOULDBLOCK, 15⟩, ⟨.count [2], 17⟩,
          ⟨.socketError WSAEWOULDBLOCK, 25⟩, ⟨.count [3], 26⟩]
      ≠ .returned .timedOut ret n :=
  ⟨by decide,
   (idle_reset_of_deadlinesFit [0, 0, 0] 3 10 0
      [⟨.count [1], 8⟩, ⟨.socketError WSAEWOULDBLOCK, 15⟩, ⟨.count [2], 17⟩,
        ⟨.socketError WSAEWOULDBLOCK, 25⟩, ⟨.count [3], 26⟩]
      (by decide) (by decide) (by decide)).2.1⟩

/-- C4, where the code departs from the claim: the tick counter does not
wrap and every would-block answer comes within the timeout 1000 of the start
or of the last progress, yet both loops leave by the deadline test with a
partial count.  Called for five bytes at the tick 4294967000, the deadline
wraps to 704 and would-block at the tick 4294967005 returns 0; called at the
tick 4294966000, after one byte at the tick 4294967000 the deadline again
wraps to 704 and would-block ten ticks later returns 1. -/
theorem idle_run_times_out_on_wrap :
    idleWithin 1000 4294967000 4294967000 [⟨.socketError WSAEWOULDBLOCK, 4294967005⟩]
      = true ∧
    NetReadFromSocket [0, 0, 0, 0, 0] 5 1000 4294967000
        [⟨.socketError WSAEWOULDBLOCK, 4294967005⟩]
      = .returned .timedOut 0 [0, 0, 0, 0, 0] 1 ∧
    NetSendToSocket 5 1000 4294967000 [⟨.socketError WSAEWOULDBLOCK, 4294967005⟩]
      = .returned .timedOut 0 1 ∧
    idleWithin 1000 4294966000 4294966000
        [⟨.count [1], 4294967000⟩, ⟨.socketError WSAEWOULDBLOCK, 4294967010⟩]
      = true ∧
    NetReadFromSocket [0, 0, 0, 0, 0] 5 1000 4294966000
        [⟨.count [1], 4294967000⟩, ⟨.socketError WSAEWOULDBLOCK, 4294967010⟩]
      = .returned .timedOut 1 [1, 0, 0, 0, 0] 2 ∧
    NetSendToSocket 5 1000 4294966000
        [⟨.count [1], 4294967000⟩, ⟨.socketError WSAEWOULDBLOCK, 4294967010⟩]
      = .returned .timedOut 1 2 := by
  decide

/-- C6: `NetSendToSocket` mirrors `NetReadFromSocket`.  On every size,
timeout, start reading and list of answers none of which reports a count of
zero, the two loops end in the same way: the same `return` statement, the
same returned value and the same number of calls (or, when the answers run
out, the same totals, deadline and number of calls). -/
theorem NetSendToSocket_mirrors_read (pBuffer : List UInt8) (size timeout : Int)
    (startTick : Nat) (atts : List Attempt)
    (hnz : ∀ a ∈ atts, a.io ≠ .count []) :
    (NetReadFromSocket pBuffer size timeout startTick atts).toSendRun
      = NetSendToSocket size timeout startTick atts := by
  unfold NetReadFromSocket NetSendToSocket
  exact readLoop_toSendRun size timeout atts _ hnz

/-- Witness of C6: two bytes, then would-block past the deadline. -/
theorem NetSendToSocket_mirrors_read_witness :
    (NetReadFromSocket [0, 0, 0, 0, 0] 5 1000 7
        [⟨.count [1, 2], 8⟩, ⟨.socketError WSAEWOULDBLOCK, 1009⟩]).toSendRun
      = NetSendToSocket 5 1000 7 [⟨.count [1, 2], 8⟩, ⟨.socketError WSAEWOULDBLOCK, 1009⟩] ∧
    NetSendToSocket 5 1000 7 [⟨.count [1, 2], 8⟩, ⟨.socketError WSAEWOULDBLOCK, 1009⟩]
      = .returned .timedOut 2 2 :=
  ⟨NetSendToSocket_mirrors_read [0, 0, 0, 0, 0] 5 1000 7
      [⟨.count [1, 2], 8⟩, ⟨.socketError WSAEWOULDBLOCK, 1009⟩] (by simp),
   by decide⟩

/-! ## Lemmas on the master set -/

theorem FD_SET_mem (cap : Nat) (fd h : Int) (set : List Int) (hcap : set.length < cap) :
    h ∈ FD_SET cap fd set ↔ h ∈ set ∨ h = fd := by
  unfold FD_SET
  by_cases hm : fd ∈ set
  · simp only [hm, if_true]
    constructor
    · exact Or.inl
    · rintro (h1 | rfl)
      · exact h1
      · exact hm
  · simp [hm, hcap]

theorem FD_SET_nodup (cap : Nat) (fd : Int) (set : List Int) (hnd : set.Nodup) :
    (FD_SET cap fd set).Nodup := by
  unfold FD_SET
  by_cases hm : fd ∈ set
  · simpa [hm] using hnd
  · by_cases hc : set.length < cap
    · simp only [hm, hc, if_true, if_false]
      exact List.Nodup.append hnd (List.nodup_singleton fd) (by simpa using hm)
    · simpa [hm, hc] using hnd

theorem FD_CLR_mem (fd h : Int) (set : List Int) (hnd : set.Nodup) :
    h ∈ FD_CLR fd set ↔ h ∈ set ∧ h ≠ fd := by
  unfold FD_CLR
  rw [List.Nodup.mem_erase_iff hnd]
  exact And.comm

theorem FD_CLR_nodup (fd : Int) (set : List Int) (hnd : set.Nodup) : (FD_CLR fd set).Nodup :=
  List.Nodup.erase fd hnd

theorem registryFrom_spec (cap : Nat) :
    ∀ (ops : List RegistryOp) (s : NetState),
      s.g_netSocketsSet.Nodup →
      neverFull cap s ops = true →
      (registryFrom cap s ops).Nodup ∧
      ∀ h, h ∈ registryFrom cap s ops ↔
        (∃ pre post, ops = pre ++ .register h :: post ∧ RegistryOp.unregister h ∉ post) ∨
        (h ∈ s.g_netSocketsSet ∧ RegistryOp.unregister h ∉ ops) := by
  intro ops
  induction ops with
  | nil =>
    intro s hnd _
    refine ⟨hnd, fun h => ?_⟩
    simp [registryFrom]
  | cons op rest ih =>
    intro s hnd hnf
    cases op with
    | register fd =>
      simp only [neverFull, Bool.and_eq_true, decide_eq_true_eq] at hnf
      obtain ⟨hcap, hnf1⟩ := hnf
      have hnd1 : (applyOp cap s (.register fd)).g_netSocketsSet.Nodup :=
        FD_SET_nodup cap fd _ hnd
      obtain ⟨h1, h2⟩ := ih _ hnd1 hnf1
      refine ⟨h1, fun h => ?_⟩
      have h3 := h2 h
      simp only [registryFrom, List.foldl_cons] at h3 ⊢
      rw [h3]
      simp only [applyOp, FD_SET_mem cap fd h _ hcap]
      constructor
      · rintro (⟨pre, post, rfl, hp⟩ | ⟨hm | rfl, hp⟩)
        · exact Or.inl ⟨.register fd :: pre, post, rfl, hp⟩
        · exact Or.inr ⟨hm, by simpa using hp⟩
        · exact Or.inl ⟨[], rest, rfl, hp⟩
      · rintro (⟨pre, post, heq, hp⟩ | ⟨hm, hp⟩)
        · rcases List.cons_eq_append_iff.mp heq with ⟨rfl, h5⟩ | ⟨pre1, rfl, h5⟩
          · injection h5 with h6 h7
            injection h6 with h8
            subst h7 h8
            exact Or.inr ⟨Or.inr rfl, hp⟩
          · exact Or.inl ⟨pre1, post, h5, hp⟩
        · exact Or.inr ⟨Or.inl hm, by simpa using hp⟩
    | unregister fd =>
      simp only [neverFull] at hnf
      have hnd1 : (applyOp cap s (.unregister fd)).g_netSocketsSet.Nodup :=
        FD_CLR_nodup fd _ hnd
      obtain ⟨h1, h2⟩ := ih _ hnd1 hnf
      refine ⟨h1, fun h => ?_⟩
      have h3 := h2 h
      simp only [registryFrom, List.foldl_cons] at h3 ⊢
      rw [h3]
      simp only [applyOp, NetCloseSocket, FD_CLR_mem fd h _ hnd]
      constructor
      · rintro (⟨pre, post, rfl, hp⟩ | ⟨⟨hm, hne⟩, hp⟩)
        · exact Or.inl ⟨.unregister fd :: pre, post, rfl, hp⟩
        · refine Or.inr ⟨hm, ?_⟩
          simp only [List.mem_cons, RegistryOp.unregister.injEq, not_or]
          exact ⟨hne, hp⟩
      · rintro (⟨pre, post, heq, hp⟩ | ⟨hm, hp⟩)
        · rcases List.cons_eq_append_iff.mp heq with ⟨rfl, h5⟩ | ⟨pre1, rfl, h5⟩
          · injection h5 with h6 h7
            injection h6
          · exact Or.inl ⟨pre1, post, h5, hp⟩
        · simp only [List.mem_cons, RegistryOp.unregister.injEq, not_or] at hp
          exact Or.inr ⟨⟨hm, hp.1⟩, hp.2⟩

theorem NetCleanupLoop_returns :
    ∀ (fuel i : Nat) (s : NetState),
      s.g_netSocketsSet.length ≤ i + fuel → ∃ s1, NetCleanupLoop fuel i s = some s1 := by
  intro fuel
  induction fuel with
  | zero =>
    intro i s h
    exact ⟨s, by simp only [NetCleanupLoop]; rw [if_neg]; omega⟩
  | succ fuel ih =>
    intro i s h
    by_cases hi : i < s.g_netSocketsSet.length
    · simp only [NetCleanupLoop, hi, dite_true]
      apply ih
      have := List.length_erase_le (s.g_netSocketsSet.get ⟨i, hi⟩) s.g_netSocketsSet
      simp only [NetCloseSocket, FD_CLR]
      omega
    · exact ⟨s, by simp only [NetCleanupLoop, hi, dite_false]⟩

/-- The loop of `NetCleanup` always ends within `fd_count` iterations. -/
theorem NetCleanup_returns (s : NetState) : ∃ s1, NetCleanup s = some s1 :=
  NetCleanupLoop_returns _ 0 s (by omega)

/-! ## Claims on the registry -/

set_option maxRecDepth 100000

/-- C7, where the code departs from the claim: with two handles in the
registry `NetCleanup` closes the first only and returns with the second
still registered and never passed to `closesocket`; with five it closes
the first, third and fifth.  `NetCloseSocket` removes `fd_array[i]`, the
next member moves down to index `i`, and `i++` steps over it. -/
theorem NetCleanup_skips_members :
    NetCleanup ⟨[3, 4], [], []⟩ = some ⟨[4], [3], []⟩ ∧
    NetCleanup ⟨[3, 4, 5, 6, 7], [], []⟩ = some ⟨[4, 6], [3, 5, 7], []⟩ := by
  decide

/-- C8 as stated fails: with `FD_SETSIZE = 64`, after the registrations of
the handles 0 to 64 the handle 64 has been registered and never
unregistered, and it is not in the registry. -/
theorem registry_full_drops_registration :
    ¬ (∀ h : Int, h ∈ registryAfter 64 ((handles 65).map RegistryOp.register) ↔
        ∃ pre post, (handles 65).map RegistryOp.register = pre ++ .register h :: post
          ∧ RegistryOp.unregister h ∉ post) := by
  intro H
  have hin : (64 : Int) ∈ registryAfter 64 ((handles 65).map RegistryOp.register) :=
    (H 64).mpr ⟨(handles 64).map RegistryOp.register, [], by decide, by simp⟩
  exact absurd hin (by decide)

/-- C8, amended: starting from the empty registry, for every sequence of
registrations and unregistrations in which the registry holds fewer than
`FD_SETSIZE` handles at every registration, a handle is in the registry
exactly when it was registered and not unregistered afterwards, and no
handle occurs in the registry twice. -/
theorem registry_membership (FD_SETSIZE : Nat) (ops : List RegistryOp)
    (hcap : neverFull FD_SETSIZE ⟨[], [], []⟩ ops = true) :
    (∀ h : Int, h ∈ registryAfter FD_SETSIZE ops ↔
      ∃ pre post, ops = pre ++ .register h :: post ∧ RegistryOp.unregister h ∉ post) ∧
    (registryAfter FD_SETSIZE ops).Nodup := by
  obtain ⟨h1, h2⟩ := registryFrom_spec FD_SETSIZE ops ⟨[], [], []⟩ List.nodup_nil hcap
  refine ⟨fun h => ?_, h1⟩
  have h3 := h2 h
  simp only [List.not_mem_nil, false_and, or_false] at h3
  exact h3

/-- Witness of C8 amended: handle 5 is registered twice, unregistered once
in between, handle 6 is registered and unregistered. -/
theorem registry_membership_witness :
    neverFull 64 ⟨[], [], []⟩
        [.register 5, .register 6, .register 5, .unregister 5, .unregister 6, .register 5]
      = true ∧
    registryAfter 64
        [.register 5, .register 6, .register 5, .unregister 5, .unregister 6, .register 5]
      = [5] ∧
    ((∀ h : Int, h ∈ registryAfter 64
        [.register 5, .register 6, .register 5, .unregister 5, .unregister 6, .register 5] ↔
      ∃ pre post,
        [RegistryOp.register 5, .register 6, .register 5, .unregister 5, .unregister 6,
            .register 5] = pre ++ .register h :: post
          ∧ RegistryOp.unregister h ∉ post) ∧
    (registryAfter 64
        [.register 5, .register 6, .register 5, .unregister 5, .unregister 6, .register 5]).Nodup) :=
  ⟨by decide, by decide,
   registry_membership 64
     [.register 5, .register 6, .register 5, .unregister 5, .unregister 6, .register 5]
     (by decide)⟩

/-- C9 as stated fails: with `FD_SETSIZE = 64` and the handles 0 to 63 in
the registry, `NetOpenListenerSocket` and `NetOpenConnectingSocket`, all
their calls succeeding and `socket` giving the handle 100, return 0 with
`*pSocket = 100` and leave the registry as it was, without the handle. -/
theorem open_on_full_registry :
    (NetOpenListenerSocket 64 ⟨0, 100, 0, 0, 0, 0⟩ 0 ⟨handles 64, [], []⟩).ret = 0 ∧
    (NetOpenListenerSocket 64 ⟨0, 100, 0, 0, 0, 0⟩ 0 ⟨handles 64, [], []⟩).pSocket = 100 ∧
    (NetOpenListenerSocket 64 ⟨0, 100, 0, 0, 0, 0⟩ 0 ⟨handles 64, [], []⟩).state
      = ⟨handles 64, [], []⟩ ∧
    (100 : Int) ∉ handles 64 ∧
    (NetOpenConnectingSocket 64 ⟨0, 100, 0, 0, 0, 0⟩ 0 ⟨handles 64, [], []⟩).ret = 0 ∧
    (NetOpenConnectingSocket 64 ⟨0, 100, 0, 0, 0, 0⟩ 0 ⟨handles 64, [], []⟩).state
      = ⟨handles 64, [], []⟩ := by
  decide

/-- C9, amended: for `NetOpenListenerSocket` and `NetOpenConnectingSocket`,
every registry state and every combination of answers of the operating
system: if the call returns a non-zero code the state is what it was on
entry; if `WSAGetLastError()` gives a non-zero code, the call returns 0 only
when resolution, socket creation and bind and listen (respectively connect)
all succeeded, and then, if the registry held fewer than `FD_SETSIZE`
handles on entry, its members are those on entry and the handle written to
`*pSocket`. -/
theorem open_registers_on_success (FD_SETSIZE : Nat) (os : OpenOs) (pSocket : Int)
    (s : NetState) :
    ((NetOpenListenerSocket FD_SETSIZE os pSocket s).ret ≠ 0 →
      (NetOpenListenerSocket FD_SETSIZE os pSocket s).state = s) ∧
    ((NetOpenConnectingSocket FD_SETSIZE os pSocket s).ret ≠ 0 →
      (NetOpenConnectingSocket FD_SETSIZE os pSocket s).state = s) ∧
    (os.lastError ≠ 0 →
      ((NetOpenListenerSocket FD_SETSIZE os pSocket s).ret = 0 →
        os.getaddrinfo = 0 ∧ os.socket ≠ INVALID_SOCKET ∧ os.bind ≠ SOCKET_ERROR
          ∧ os.listen ≠ SOCKET_ERROR
          ∧ (NetOpenListenerSocket FD_SETSIZE os pSocket s).pSocket = os.socket
          ∧ (s.g_netSocketsSet.length < FD_SETSIZE →
              ∀ h, h ∈ (NetOpenListenerSocket FD_SETSIZE os pSocket s).state.g_netSocketsSet ↔
                h ∈ s.g_netSocketsSet
                  ∨ h = (NetOpenListenerSocket FD_SETSIZE os pSocket s).pSocket)) ∧
      ((NetOpenConnectingSocket FD_SETSIZE os pSocket s).ret = 0 →
        os.getaddrinfo = 0 ∧ os.socket ≠ INVALID_SOCKET ∧ os.connect ≠ SOCKET_ERROR
          ∧ (NetOpenConnectingSocket FD_SETSIZE os pSocket s).pSocket = os.socket
          ∧ (s.g_netSocketsSet.length < FD_SETSIZE →
              ∀ h, h ∈ (NetOpenConnectingSocket FD_SETSIZE os pSocket s).state.g_netSocketsSet ↔
                h ∈ s.g_netSocketsSet
                  ∨ h = (NetOpenConnectingSocket FD_SETSIZE os pSocket s).pSocket))) := by
  refine ⟨?_, ?_, fun herr => ⟨?_, ?_⟩⟩
  · unfold NetOpenListenerSocket
    split_ifs <;> simp
  · unfold NetOpenConnectingSocket
    split_ifs <;> simp
  · unfold NetOpenListenerSocket
    split_ifs with h1 h2 h3 h4
    · intro h; exact absurd h herr
    · intro h; exact absurd h herr
    · intro h; exact absurd h herr
    · intro h; exact absurd h herr
    · intro _
      refine ⟨not_not.mp h1, h2, h3, h4, rfl, fun hcap h => ?_⟩
      exact FD_SET_mem FD_SETSIZE os.socket h _ hcap
  · unfold NetOpenConnectingSocket
    split_ifs with h1 h2 h3
    · intro h; exact absurd h herr
    · intro h; exact absurd h herr
    · intro h; exact absurd h herr
    · intro _
      refine ⟨not_not.mp h1, h2, h3, rfl, fun hcap h => ?_⟩
      exact FD_SET_mem FD_SETSIZE os.socket h _ hcap

/-- Witness of C9 amended: a listener opened with the handle 100 while the
registry holds the handles 0 and 1, and a failing `bind` (code 10048). -/
theorem open_registers_on_success_witness :
    (NetOpenListenerSocket 64 ⟨0, 100, 0, 0, 0, 10048⟩ 0 ⟨handles 2, [], []⟩).ret = 0 ∧
    (∀ h, h ∈ (NetOpenListenerSocket 64 ⟨0, 100, 0, 0, 0, 10048⟩ 0
          ⟨handles 2, [], []⟩).state.g_netSocketsSet ↔
      h ∈ handles 2
        ∨ h = (NetOpenListenerSocket 64 ⟨0, 100, 0, 0, 0, 10048⟩ 0 ⟨handles 2, [], []⟩).pSocket) ∧
    (NetOpenListenerSocket 64 ⟨0, 100, -1, 0, 0, 10048⟩ 0 ⟨handles 2, [], []⟩).ret = 10048 ∧
    (NetOpenListenerSocket 64 ⟨0, 100, -1, 0, 0, 10048⟩ 0 ⟨handles 2, [], []⟩).state
      = ⟨handles 2, [], []⟩ :=
  ⟨by decide,
   (((open_registers_on_success 64 ⟨0, 100, 0, 0, 0, 10048⟩ 0 ⟨handles 2, [], []⟩).2.2
      (by decide)).1 (by decide)).2.2.2.2.2 (by decide),
   by decide,
   (open_registers_on_success 64 ⟨0, 100, -1, 0, 0, 10048⟩ 0 ⟨handles 2, [], []⟩).1
     (by decide)⟩

/-- C10: for every combination of answers of the operating system, every
handle that `NetOpenClientSocket` adds to the registry is the one `accept`
gave, `ioctlsocket` did not fail on it, and it is among the handles in
non-blocking mode; if `accept` fails or `ioctlsocket` fails, the call
returns the code `WSAGetLastError()` gives, the state is what it was on
entry and `*pClientSocket` is not written. -/
theorem NetOpenClientSocket_nonblocking (FD_SETSIZE : Nat) (os : AcceptOs)
    (pClientSocket : Option Int) (s : NetState) :
    (∀ h, h ∈ (NetOpenClientSocket FD_SETSIZE os pClientSocket s).state.g_netSocketsSet →
      h ∉ s.g_netSocketsSet →
      h = os.accept ∧ os.accept ≠ SOCKET_ERROR ∧ os.ioctlsocket ≠ SOCKET_ERROR
        ∧ h ∈ (NetOpenClientSocket FD_SETSIZE os pClientSocket s).state.nonBlocking) ∧
    (os.accept = SOCKET_ERROR ∨ os.ioctlsocket = SOCKET_ERROR →
      (NetOpenClientSocket FD_SETSIZE os pClientSocket s).ret = os.lastError
        ∧ (NetOpenClientSocket FD_SETSIZE os pClientSocket s).state = s
        ∧ (NetOpenClientSocket FD_SETSIZE os pClientSocket s).pClientSocket = pClientSocket) := by
  unfold NetOpenClientSocket
  simp only
  split_ifs with h1 h2
  · exact ⟨fun h hin hnot => absurd hin hnot, fun _ => ⟨rfl, rfl, rfl⟩⟩
  · exact ⟨fun h hin hnot => absurd hin hnot, fun _ => ⟨rfl, rfl, rfl⟩⟩
  · refine ⟨fun h hin hnot => ?_, fun hor => ?_⟩
    · simp only [FD_SET] at hin
      have hh : h = os.accept := by
        split_ifs at hin with h3 h4
        · exact absurd hin hnot
        · rcases List.mem_append.mp hin with h5 | h5
          · exact absurd h5 hnot
          · simpa using h5
        · exact absurd hin hnot
      exact ⟨hh, h1, h2, by simp [hh]⟩
    · rcases hor with h | h
      · exact absurd h h1
      · exact absurd h h2

/-- Witness of C10: `accept` gives the handle 7 and `ioctlsocket` succeeds;
`accept` gives 7 and `ioctlsocket` fails with the code 10022. -/
theorem NetOpenClientSocket_nonblocking_witness :
    (NetOpenClientSocket 64 ⟨7, 0, 0⟩ (some 0) ⟨[3], [], []⟩).state = ⟨[3, 7], [], [7]⟩ ∧
    ((7 : Int) = 7 ∧ (7 : Int) ≠ SOCKET_ERROR ∧ (0 : Int) ≠ SOCKET_ERROR
      ∧ (7 : Int) ∈ (NetOpenClientSocket 64 ⟨7, 0, 0⟩ (some 0) ⟨[3], [], []⟩).state.nonBlocking) ∧
    ((NetOpenClientSocket 64 ⟨7, -1, 10022⟩ (some 0) ⟨[3], [], []⟩).ret = 10022
      ∧ (NetOpenClientSocket 64 ⟨7, -1, 10022⟩ (some 0) ⟨[3], [], []⟩).state = ⟨[3], [], []⟩
      ∧ (NetOpenClientSocket 64 ⟨7, -1, 10022⟩ (some 0) ⟨[3], [], []⟩).pClientSocket = some 0) :=
  ⟨by decide,
   (NetOpenClientSocket_nonblocking 64 ⟨7, 0, 0⟩ (some 0) ⟨[3], [], []⟩).1 7
     (by decide) (by decide),
   (NetOpenClientSocket_nonblocking 64 ⟨7, -1, 10022⟩ (some 0) ⟨[3], [], []⟩).2
     (Or.inr (by decide))⟩

/-! ## Claims on the polling functions -/

/-- C11: with timeout 0, and with the default argument, the `select` call of
`NetPollReadableSockets` has a null timeout pointer (no time bound), while
the `select` call of `NetPollWritableSockets` has the time bound of 0
seconds and 0 microseconds; in both the set queried is the current content
of the master set, passed as the read set and as the write set
respectively. -/
theorem poll_zero_timeout_asymmetric (os : SelectOs) (s : NetState) :
    (NetPollReadableSockets 0 os s).call = ⟨some s.g_netSocketsSet, none, none⟩ ∧
    (NetPollReadableSockets defaultTimeout os s).call
      = ⟨some s.g_netSocketsSet, none, none⟩ ∧
    (NetPollWritableSockets 0 os s).call
      = ⟨none, some s.g_netSocketsSet, some ⟨0, 0⟩⟩ ∧
    (NetPollWritableSockets defaultTimeout os s).call
      = ⟨none, some s.g_netSocketsSet, some ⟨0, 0⟩⟩ := by
  refine ⟨?_, ?_, ?_, ?_⟩ <;>
    simp only [NetPollReadableSockets, NetPollWritableSockets, defaultTimeout, gt_iff_lt,
      lt_irrefl, if_false] <;>
    split_ifs <;> rfl

/-- C12 as stated fails: with the timeout 5 `NetPollReadableSockets` bounds
the wait by 0 seconds and 5000 microseconds, `NetPollWritableSockets` by 0
seconds and 5 microseconds, so the same value does not give the same bound
and the bound of the second is not 5 milliseconds. -/
theorem poll_timeout_units_differ :
    (NetPollReadableSockets 5 ⟨0, [], 0⟩ ⟨[3, 4], [], []⟩).call.timeout = some ⟨0, 5000⟩ ∧
    (NetPollWritableSockets 5 ⟨0, [], 0⟩ ⟨[3, 4], [], []⟩).call.timeout = some ⟨0, 5⟩ ∧
    (NetPollWritableSockets 5 ⟨0, [], 0⟩ ⟨[3, 4], [], []⟩).call.timeout
      ≠ (NetPollReadableSockets 5 ⟨0, [], 0⟩ ⟨[3, 4], [], []⟩).call.timeout := by
  decide

/-- C12, amended: the timeout of `NetPollReadableSockets` is in
milliseconds, that of `NetPollWritableSockets` in microseconds.  For every
positive timeout `t` whose product `t * 1000` fits a 32-bit signed field,
the first bounds the wait by 0 seconds and `t * 1000` microseconds, the
second by 0 seconds and `t` microseconds, and the two bounds differ. -/
theorem poll_timeout_bounds (t : Int) (os : SelectOs) (s : NetState)
    (hpos : 0 < t)
    (hfit : t * 1000 ≤ 2147483647) :
    (NetPollReadableSockets t os s).call.timeout = some ⟨0, t * 1000⟩ ∧
    (NetPollWritableSockets t os s).call.timeout = some ⟨0, t⟩ ∧
    (NetPollReadableSockets t os s).call.timeout
      ≠ (NetPollWritableSockets t os s).call.timeout := by
  have hw : toInt32 (t * 1000) = t * 1000 := by unfold toInt32; omega
  have hR : (NetPollReadableSockets t os s).call.timeout = some ⟨0, t * 1000⟩ := by
    simp only [NetPollReadableSockets, gt_iff_lt, hpos, if_true, hw]
    split_ifs <;> rfl
  have hW : (NetPollWritableSockets t os s).call.timeout = some ⟨0, t⟩ := by
    simp only [NetPollWritableSockets]
    split_ifs <;> rfl
  refine ⟨hR, hW, ?_⟩
  rw [hR, hW]
  intro h
  injection h with h1
  injection h1 with _ h2
  omega

/-- Witness of C12 amended: the timeout 250. -/
theorem poll_timeout_bounds_witness :
    (NetPollReadableSockets 250 ⟨1, [3], 0⟩ ⟨[3, 4], [], []⟩).call.timeout
      = some ⟨0, 250 * 1000⟩ ∧
    (NetPollWritableSockets 250 ⟨1, [3], 0⟩ ⟨[3, 4], [], []⟩).call.timeout = some ⟨0, 250⟩ ∧
    (NetPollReadableSockets 250 ⟨1, [3], 0⟩ ⟨[3, 4], [], []⟩).call.timeout
      ≠ (NetPollWritableSockets 250 ⟨1, [3], 0⟩ ⟨[3, 4], [], []⟩).call.timeout :=
  poll_timeout_bounds 250 ⟨1, [3], 0⟩ ⟨[3, 4], [], []⟩ (by decide) (by decide)

/-! ## Claims on the deadline of the transfer loops -/

theorem readLoop_silentPeer (size timeout : Int) :
    ∀ (n t : Nat) (st : ReadState),
      st.totalReadBytes < size →
      st.endTick = 4294967295 →
      readLoop size timeout (silentPeer t n) st
        = .pending ⟨st.totalReadBytes, st.endTick, st.buffer, st.attempts + n⟩ := by
  intro n
  induction n with
  | zero =>
    intro t st hlt _
    simp [silentPeer, readLoop, hlt]
  | succ n ih =>
    intro t st hlt hend
    have ht : ¬ ((t % 4294967296) > st.endTick) := by omega
    simp only [silentPeer, readLoop, hlt, if_true, Attempt.GetTickCount, ht, if_false]
    rw [ih (t + 1) { st with attempts := st.attempts + 1 } hlt hend]
    simp only [ReadRun.pending.injEq, ReadState.mk.injEq, true_and]
    omega

theorem sendLoop_silentPeer (size timeout : Int) :
    ∀ (n t : Nat) (st : SendState),
      st.totalSentBytes < size →
      st.endTick = 4294967295 →
      sendLoop size timeout (silentPeer t n) st
        = .pending ⟨st.totalSentBytes, st.endTick, st.attempts + n⟩ := by
  intro n
  induction n with
  | zero =>
    intro t st hlt _
    simp [silentPeer, sendLoop, hlt]
  | succ n ih =>
    intro t st hlt hend
    have ht : ¬ ((t % 4294967296) > st.endTick) := by omega
    simp only [silentPeer, sendLoop, hlt, if_true, Attempt.GetTickCount, ht, if_false]
    rw [ih (t + 1) { st with attempts := st.attempts + 1 } hlt hend]
    simp only [SendRun.pending.injEq, SendState.mk.injEq, true_and]
    omega

/-- C13, where the code departs from the claim: called for one byte with
the timeout 1000 when `GetTickCount()` reads 4294966295, the deadline is
4294967295, the largest `DWORD`, and no reading is greater; against a peer
that stays silent, with the tick advancing by one at every attempt, neither
`NetReadFromSocket` nor `NetSendToSocket` has returned after `n` attempts,
for every `n`. -/
theorem transfer_spins_on_last_tick (n : Nat) :
    NetReadFromSocket [0] 1 1000 4294966295 (silentPeer 4294966296 n)
      = .pending ⟨0, 4294967295, [0], n⟩ ∧
    NetSendToSocket 1 1000 4294966295 (silentPeer 4294966296 n)
      = .pending ⟨0, 4294967295, n⟩ := by
  constructor
  · have h := readLoop_silentPeer 1 1000 n 4294966296 ⟨0, 4294967295, [0], 0⟩
      (by decide) rfl
    simpa [NetReadFromSocket, toDWORD] using h
  · have h := sendLoop_silentPeer 1 1000 n 4294966296 ⟨0, 4294967295, 0⟩ (by decide) rfl
    simpa [NetSendToSocket, toDWORD] using h

/-- C14, where the code departs from the claim: asked for five bytes with
the timeout 1000 from the tick 7, when the only answer is would-block read
at the tick 1008, `NetReadFromSocket` returns 0 by `return totalReadBytes`,
the value of a closed connection, although no `recv` call returned zero. -/
theorem NetReadFromSocket_zero_without_close :
    NetReadFromSocket [0, 0, 0, 0, 0] 5 1000 7 [⟨.socketError WSAEWOULDBLOCK, 1008⟩]
      = .returned .timedOut 0 [0, 0, 0, 0, 0] 1 ∧
    (∀ a ∈ [(⟨.socketError WSAEWOULDBLOCK, 1008⟩ : Attempt)], a.io ≠ .count []) ∧
    NetReadFromSocket [0, 0, 0, 0, 0] 5 1000 7 [⟨.count [], 8⟩]
      = .returned .closed 0 [0, 0, 0, 0, 0] 1 := by
  refine ⟨by decide, by simp, by decide⟩

/-- C15, where the code departs from the claim: called for five bytes with
the timeout 1000 when `GetTickCount()` reads 4294967295, the deadline wraps
to 999; a would-block answer read at the same tick, no time having elapsed,
is past it, and `NetReadFromSocket` and `NetSendToSocket` return the
partial count 0 by the deadline test at the first attempt. -/
theorem transfer_times_out_at_once_on_wrap :
    toDWORD ((4294967295 : Nat) + (1000 : Int)) = 999 ∧
    NetReadFromSocket [0, 0, 0, 0, 0] 5 1000 4294967295
        [⟨.socketError WSAEWOULDBLOCK, 4294967295⟩]
      = .returned .timedOut 0 [0, 0, 0, 0, 0] 1 ∧
    NetSendToSocket 5 1000 4294967295 [⟨.socketError WSAEWOULDBLOCK, 4294967295⟩]
      = .returned .timedOut 0 1 ∧
    NetReadFromSocket [0, 0, 0, 0, 0] 5 1000 4294967290
        [⟨.count [1, 2], 4294967295⟩, ⟨.socketError WSAEWOULDBLOCK, 4294967295⟩]
      = .returned .timedOut 2 [1, 2, 0, 0, 0] 2 := by
  decide

/-! ## Claims on the bounds of `NetReadFromSocket` -/

theorem readLoop_cons_count (size timeout : Int) (a : Attempt) (rest : List Attempt)
    (st : ReadState) (chunk : List UInt8)
    (hlt : st.totalReadBytes < size) (hio : a.io = .count chunk) (hne : chunk ≠ []) :
    readLoop size timeout (a :: rest) st
      = readLoop size timeout rest
          { totalReadBytes := st.totalReadBytes + (chunk.length : Int)
            endTick := toDWORD (a.GetTickCount + timeout)
            buffer := writeAt st.buffer st.totalReadBytes.toNat chunk
            attempts := st.attempts + 1 } := by
  have hz : ¬ ((chunk.length : Int) = 0) := by
    have := List.length_pos.mpr hne
    omega
  simp only [readLoop, hlt, if_true, hio, hz, if_false]

theorem readLoop_cons_wouldBlock (size timeout : Int) (a : Attempt) (rest : List Attempt)
    (st : ReadState)
    (hlt : st.totalReadBytes < size) (hio : a.io = .socketError WSAEWOULDBLOCK)
    (ht : ¬ a.GetTickCount > st.endTick) :
    readLoop size timeout (a :: rest) st
      = readLoop size timeout rest { st with attempts := st.attempts + 1 } := by
  simp only [readLoop, hlt, if_true, hio, ht, if_false]

theorem readLoop_pending_head (size timeout : Int) (st : ReadState)
    (hlt : st.totalReadBytes < size) :
    readLoop size timeout [] st = .pending st := by
  simp only [readLoop, hlt, if_true]

theorem readLoop_buffer_length (size timeout : Int) :
    ∀ (pre : List Attempt) (st0 st : ReadState),
      0 ≤ st0.totalReadBytes →
      size ≤ (st0.buffer.length : Int) →
      (∀ p a q st1 chunk, pre = p ++ a :: q →
        readLoop size timeout p st0 = .pending st1 →
        a.io = .count chunk → (chunk.length : Int) ≤ size - st1.totalReadBytes) →
      readLoop size timeout pre st0 = .pending st →
      st.buffer.length = st0.buffer.length := by
  intro pre
  induction pre with
  | nil =>
    intro st0 st _ _ _ hp
    by_cases hlt : st0.totalReadBytes < size
    · simp only [readLoop, hlt, if_true, ReadRun.pending.injEq] at hp
      rw [hp]
    · simp [readLoop, hlt] at hp
  | cons a pre ih =>
    intro st0 st h0 hbuf H hp
    by_cases hlt : st0.totalReadBytes < size
    · cases hio : a.io with
      | count chunk =>
        by_cases hne : chunk = []
        · subst hne
          simp [readLoop, hlt, hio] at hp
        · have hstep := readLoop_cons_count size timeout a pre st0 chunk hlt hio hne
          rw [hstep] at hp
          have hle := H [] a pre st0 chunk rfl (readLoop_pending_head size timeout st0 hlt) hio
          have hwl : (writeAt st0.buffer st0.totalReadBytes.toNat chunk).length
              = st0.buffer.length := writeAt_length _ _ _ (by omega)
          rw [← hwl]
          refine ih _ st (by simp only; omega) (by simp only; rw [hwl]; exact hbuf) ?_ hp
          intro p b q st1 chunk1 hpre hp1 hb
          refine H (a :: p) b q st1 chunk1 (by rw [hpre]; rfl) ?_ hb
          rw [readLoop_cons_count size timeout a p st0 chunk hlt hio hne]
          exact hp1
      | socketError e =>
        by_cases he : e = WSAEWOULDBLOCK
        · subst he
          by_cases ht : a.GetTickCount > st0.endTick
          · simp [readLoop, hlt, hio, ht] at hp
          · have hstep := readLoop_cons_wouldBlock size timeout a pre st0 hlt hio ht
            rw [hstep] at hp
            refine ih { st0 with attempts := st0.attempts + 1 } st h0 hbuf ?_ hp
            intro p b q st1 chunk1 hpre hp1 hb
            refine H (a :: p) b q st1 chunk1 (by rw [hpre]; rfl) ?_ hb
            rw [readLoop_cons_wouldBlock size timeout a p st0 hlt hio ht]
            exact hp1
        · simp [readLoop, hlt, hio, he] at hp
    · simp [readLoop, hlt] at hp

theorem readLoop_ret_bounds (size timeout : Int) :
    ∀ (atts : List Attempt) (st0 : ReadState),
      0 ≤ st0.totalReadBytes →
      st0.totalReadBytes ≤ max size 0 →
      (∀ p a q st1 chunk, atts = p ++ a :: q →
        readLoop size timeout p st0 = .pending st1 →
        a.io = .count chunk → (chunk.length : Int) ≤ size - st1.totalReadBytes) →
      ∀ site ret buf n, readLoop size timeout atts st0 = .returned site ret buf n →
        ret = SOCKET_ERROR ∨ (0 ≤ ret ∧ ret ≤ max size 0) := by
  intro atts
  induction atts with
  | nil =>
    intro st0 h0 h1 _ site ret buf n hr
    by_cases hlt : st0.totalReadBytes < size
    · simp [readLoop, hlt] at hr
    · simp only [readLoop, hlt, if_false, ReadRun.returned.injEq] at hr
      obtain ⟨_, hret, _, _⟩ := hr
      exact Or.inr ⟨by omega, by omega⟩
  | cons a rest ih =>
    intro st0 h0 h1 H site ret buf n hr
    by_cases hlt : st0.totalReadBytes < size
    · cases hio : a.io with
      | count chunk =>
        by_cases hne : chunk = []
        · subst hne
          simp only [readLoop, hlt, if_true, hio, List.length_nil, Nat.cast_zero,
            ReadRun.returned.injEq] at hr
          obtain ⟨_, hret, _, _⟩ := hr
          exact Or.inr ⟨by omega, by rw [← hret]; exact le_max_right _ _⟩
        · rw [readLoop_cons_count size timeout a rest st0 chunk hlt hio hne] at hr
          have hle := H [] a rest st0 chunk rfl (readLoop_pending_head size timeout st0 hlt) hio
          refine ih _ (by simp only; omega) ?_ ?_ site ret buf n hr
          · simp only
            exact le_trans (by omega) (le_max_left size 0)
          · intro p b q st1 chunk1 hpre hp1 hb
            refine H (a :: p) b q st1 chunk1 (by rw [hpre]; rfl) ?_ hb
            rw [readLoop_cons_count size timeout a p st0 chunk hlt hio hne]
            exact hp1
      | socketError e =>
        by_cases he : e = WSAEWOULDBLOCK
        · subst he
          by_cases ht : a.GetTickCount > st0.endTick
          · simp only [readLoop, hlt, if_true, hio, ht, ReadRun.returned.injEq] at hr
            obtain ⟨_, hret, _, _⟩ := hr
            exact Or.inr ⟨by omega, by omega⟩
          · rw [readLoop_cons_wouldBlock size timeout a rest st0 hlt hio ht] at hr
            refine ih { st0 with attempts := st0.attempts + 1 } h0 h1 ?_ site ret buf n hr
            intro p b q st1 chunk1 hpre hp1 hb
            refine H (a :: p) b q st1 chunk1 (by rw [hpre]; rfl) ?_ hb
            rw [readLoop_cons_wouldBlock size timeout a p st0 hlt hio ht]
            exact hp1
        · simp only [readLoop, hlt, if_true, hio, he, if_false, ReadRun.returned.injEq] at hr
          obtain ⟨_, hret, _, _⟩ := hr
          exact Or.inl hret.symm
    · simp only [readLoop, hlt, if_false, ReadRun.returned.injEq] at hr
      obtain ⟨_, hret, _, _⟩ := hr
      exact Or.inr ⟨by omega, by omega⟩

/-- C16: for every size, timeout and list of answers in which each
successful read returns at most the length requested, whenever the loop of
`NetReadFromSocket` is about to call `recv` (it is still running after a
prefix of the answers) `0 <= totalReadBytes <= max(size, 0)`, the call is
requested at the offset `totalReadBytes` with a length
`size - totalReadBytes > 0` that ends at `size`, and a buffer of at least
`size` bytes keeps its length; the value returned is `SOCKET_ERROR` or lies
in `[0, max(size, 0)]`; for `size <= 0` the function returns 0 without any
call of `recv`. -/
theorem NetReadFromSocket_bounds (pBuffer : List UInt8) (size timeout : Int) (startTick : Nat)
    (atts : List Attempt)
    (hreq : ∀ pre a post st chunk, atts = pre ++ a :: post →
      NetReadFromSocket pBuffer size timeout startTick pre = .pending st →
      a.io = .count chunk → (chunk.length : Int) ≤ (recvRequest size st).2) :
    (∀ pre post st, atts = pre ++ post →
      NetReadFromSocket pBuffer size timeout startTick pre = .pending st →
      0 ≤ st.totalReadBytes ∧ st.totalReadBytes ≤ max size 0 ∧
      (recvRequest size st).1 = st.totalReadBytes ∧
      0 ≤ (recvRequest size st).1 ∧ 0 < (recvRequest size st).2 ∧
      (recvRequest size st).1 + (recvRequest size st).2 ≤ size ∧
      (size ≤ (pBuffer.length : Int) → st.buffer.length = pBuffer.length)) ∧
    (∀ site ret buf n,
      NetReadFromSocket pBuffer size timeout startTick atts = .returned site ret buf n →
      ret = SOCKET_ERROR ∨ (0 ≤ ret ∧ ret ≤ max size 0)) ∧
    (size ≤ 0 →
      NetReadFromSocket pBuffer size timeout startTick atts = .returned .full 0 pBuffer 0) := by
  unfold NetReadFromSocket at hreq ⊢
  simp only [recvRequest] at hreq ⊢
  refine ⟨?_, ?_, ?_⟩
  · intro pre post st hsplit hp
    obtain ⟨_, h2, h3, _⟩ := readLoop_pending size timeout pre _ st _ hp rfl
    simp only [zero_add] at h2
    have hge : 0 ≤ ((transferred pre).length : Int) := Int.natCast_nonneg _
    refine ⟨by omega, by omega, trivial, by omega, by omega, by omega, fun hbuf => ?_⟩
    refine readLoop_buffer_length size timeout pre _ st (le_refl _) hbuf ?_ hp
    intro p a q st1 chunk hpre hp1 ha
    exact hreq p a (q ++ post) st1 chunk (by rw [hsplit, hpre]; simp) hp1 ha
  · intro site ret buf n hr
    exact readLoop_ret_bounds size timeout atts _ (le_refl _) (le_max_right _ _) hreq
      site ret buf n hr
  · intro hle
    rw [readLoop_done _ _ _ _ (by simp only; omega)]

/-- Witness of C16: three bytes requested, two bytes then one byte read. -/
theorem NetReadFromSocket_bounds_witness :
    (∀ site ret buf n,
      NetReadFromSocket [0, 0, 0] 3 1000 7 [⟨.count [1, 2], 8⟩, ⟨.count [3], 9⟩]
        = .returned site ret buf n →
      ret = SOCKET_ERROR ∨ (0 ≤ ret ∧ ret ≤ max 3 0)) ∧
    NetReadFromSocket [0, 0, 0] 3 1000 7 [⟨.count [1, 2], 8⟩, ⟨.count [3], 9⟩]
      = .returned .full 3 [1, 2, 3] 2 :=
  ⟨(NetReadFromSocket_bounds [0, 0, 0] 3 1000 7 [⟨.count [1, 2], 8⟩, ⟨.count [3], 9⟩]
      (by
        intro pre a post st chunk hsplit hp ha
        rcases pre with _ | ⟨b, _ | ⟨c, pre⟩⟩
        · simp only [List.nil_append, List.cons.injEq] at hsplit
          obtain ⟨rfl, _⟩ := hsplit
          have h0 : NetReadFromSocket [0, 0, 0] 3 1000 7 [] = .pending ⟨0, 1007, [0, 0, 0], 0⟩ := by
            decide
          rw [h0] at hp
          injection hp with hst
          subst hst
          injection ha with hc
          subst hc
          decide
        · simp only [List.cons_append, List.nil_append, List.cons.injEq] at hsplit
          obtain ⟨rfl, rfl, _⟩ := hsplit
          have h1 : NetReadFromSocket [0, 0, 0] 3 1000 7 [⟨.count [1, 2], 8⟩]
              = .pending ⟨2, 1008, [1, 2, 0], 1⟩ := by decide
          rw [h1] at hp
          injection hp with hst
          subst hst
          injection ha with hc
          subst hc
          decide
        · simp only [List.cons_append, List.cons.injEq] at hsplit
          obtain ⟨_, _, hnil⟩ := hsplit
          simp at hnil)).2.1,
   by decide⟩

end Network
